import Mathlib

/-!
Verification of the spatial index and boid-update engine of `cli-boids`.

The Rust sources are shallowly embedded:
* `src/grid.rs` (the arena + intrusive linked-list grid) as `CliBoids.Grid`,
  with panics modelled as `Option.none` and `u32`/`usize`/`i32` as `Nat`/`Int`
  (release semantics for the single `u32` decrement: truncated subtraction;
  all reachable states keep the counter equal to a chain length, so no
  wrap-around is observable in any claim);
* `src/boids/simulation.rs` (the per-boid update) generically over a
  `LinearOrderedField` standing in for `f32`, with `f32::sqrt` passed as an
  explicit function parameter and the two `fastrand::f32()` draws passed as
  explicit values, so every definition stays computable and the discrete
  claims can be settled by evaluation at `ℚ`.
-/

namespace CliBoids

/-- Index given to any non-existing value (`const EMPTY: i32 = -1` in grid.rs). -/
def EMPTY : Int := -1

/-- Mirrors `ValueNode<T>` of grid.rs: a stored value plus the index of the
next value in its cell's linked list. -/
structure ValueNode (T : Type) where
  next_index : Int
  val : T
  deriving Repr, DecidableEq

/-- Mirrors `GridNode` of grid.rs: per-cell `first`/`last` indices and `count`. -/
structure GridNode where
  first : Int
  last : Int
  count : Nat
  deriving Repr, DecidableEq

/-- The default `GridNode` used for out-of-range reads in the model (real code
panics instead; we only read in range in every claim). -/
def emptyNode : GridNode := { first := EMPTY, last := EMPTY, count := 0 }

/-- Mirrors `Grid<T>` of grid.rs. -/
structure Grid (T : Type) where
  values : List (ValueNode T)
  grid : List GridNode
  count : Nat
  rows : Nat
  columns : Nat
  deriving Repr, DecidableEq

namespace Grid

/-- Mirrors `Grid::new`: all cells empty, no values. -/
def newGrid (T : Type) (columns rows : Nat) : Grid T :=
  { values := []
    grid := List.replicate (columns * rows) emptyNode
    count := 0
    rows := rows
    columns := columns }

/-- Mirrors `Grid::index_from_pos`: the cell index for `(row, column)`, or
`EMPTY` if the position falls outside of the grid. -/
def index_from_pos (g : Grid T) (row column : Int) : Int :=
  if 0 ≤ row ∧ row < (g.rows : Int) ∧ 0 ≤ column ∧ column < (g.columns : Int) then
    column + row * (g.columns : Int)
  else
    EMPTY

/-- The grid node at a raw cell index (reads are always in range whenever
`grid.length = rows * columns`, which every constructor maintains). -/
def nodeAt (g : Grid T) (c : Nat) : GridNode :=
  g.grid.getD c emptyNode

/-- Mirrors `Grid::get_grid_node`. -/
def get_grid_node (g : Grid T) (row column : Int) : Option GridNode :=
  let grid_index := g.index_from_pos row column
  if grid_index ≠ EMPTY then some (g.nodeAt grid_index.toNat) else none

/-- Mirrors `Grid::get_val` (an `Err` result, which the caller unwraps). -/
def get_val (g : Grid T) (index : Nat) : Option T :=
  if index < g.count then (g.values[index]?).map (·.val) else none

/-- Mirrors `Grid::add_val`: pushes a fresh value into the arena and, when the
cell is inside the grid, links the new index in front of the cell's chain. -/
def add_val (g : Grid T) (v : T) (row column : Int) : Grid T :=
  let grid_index := g.index_from_pos row column
  if grid_index ≠ EMPTY then
    let gi := grid_index.toNat
    let node := g.nodeAt gi
    let next_index := node.first
    let node' : GridNode :=
      { first := (g.count : Int)
        last := if next_index = EMPTY then (g.count : Int) else node.last
        count := node.count + 1 }
    { g with
      values := g.values ++ [{ next_index := next_index, val := v }]
      grid := g.grid.set gi node'
      count := g.count + 1 }
  else
    { g with
      values := g.values ++ [{ next_index := EMPTY, val := v }]
      count := g.count + 1 }

/-- Mirrors `Grid::unlink_val`; `none` models a panic (the explicit
`panic!("Incorrect previous index for value.")` or an out-of-bounds arena
access, which in Rust aborts as well). -/
def unlink_val (g : Grid T) (index : Nat) (prev_index : Int)
    (grid_row grid_column : Int) : Option (Grid T) :=
  let grid_index := g.index_from_pos grid_row grid_column
  if 0 ≤ grid_index then
    match g.values[index]? with
    | none => none
    | some node =>
      let next_index := node.next_index
      let gi := grid_index.toNat
      let gnode := g.nodeAt gi
      if prev_index = EMPTY then
        if gnode.first ≠ (index : Int) then none
        else
          some { g with
            grid := g.grid.set gi
              { first := next_index
                last := if gnode.last = (index : Int) then prev_index else gnode.last
                count := gnode.count - 1 } }
      else
        if prev_index < 0 then none
        else
          match g.values[prev_index.toNat]? with
          | none => none
          | some pnode =>
            if pnode.next_index ≠ (index : Int) then none
            else
              some { g with
                values := g.values.set prev_index.toNat
                  { pnode with next_index := next_index }
                grid := g.grid.set gi
                  { first := gnode.first
                    last := if gnode.last = (index : Int) then prev_index else gnode.last
                    count := gnode.count - 1 } }
  else some g

/-- Mirrors `Grid::link_val`: appends an existing, currently unlinked value to
the end of the cell's chain; `none` models an out-of-bounds arena access. -/
def link_val (g : Grid T) (index : Nat) (grid_row grid_column : Int) :
    Option (Grid T) :=
  let grid_index := g.index_from_pos grid_row grid_column
  if grid_index ≠ EMPTY then
    match g.values[index]? with
    | none => none
    | some node =>
      let values1 := g.values.set index { node with next_index := EMPTY }
      let gi := grid_index.toNat
      let gnode := g.nodeAt gi
      let last_index := gnode.last
      if 0 ≤ last_index then
        match values1[last_index.toNat]? with
        | none => none
        | some lnode =>
          some { g with
            values := values1.set last_index.toNat
              { lnode with next_index := (index : Int) }
            grid := g.grid.set gi
              { gnode with last := (index : Int), count := gnode.count + 1 } }
      else
        some { g with
          values := values1
          grid := g.grid.set gi
            { first := (index : Int), last := (index : Int), count := gnode.count + 1 } }
  else some g

end Grid

/-! ### Chains

`follows vals l s t` states that starting the intrusive-list walk of grid.rs
(`IndexIter`) at pointer `s` visits exactly the indices in `l`, in order, and
leaves the pointer at `t`.  A full cell chain is a walk from `first` to
`EMPTY`. -/

/-- The `next_index` pointer stored at arena slot `a`, if the slot exists. -/
def nextAt (vals : List (ValueNode T)) (a : Nat) : Option Int :=
  (vals[a]?).map (·.next_index)

/-- The walk from pointer `s` visits exactly `l` and ends at pointer `t`. -/
def follows (vals : List (ValueNode T)) : List Nat → Int → Int → Prop
  | [], s, t => s = t
  | a :: l, s, t => ∃ nx, nextAt vals a = some nx ∧ s = (a : Int) ∧ follows vals l nx t

/-- The pointer to the last element of a chain (`EMPTY` for the empty chain). -/
def lastPtr : List Nat → Int
  | [] => EMPTY
  | [a] => (a : Int)
  | _ :: b :: l => lastPtr (b :: l)

theorem follows_nil {vals : List (ValueNode T)} {s t : Int} :
    follows vals [] s t ↔ s = t := Iff.rfl

theorem follows_cons {vals : List (ValueNode T)} {a : Nat} {l : List Nat} {s t : Int} :
    follows vals (a :: l) s t ↔
      ∃ nx, nextAt vals a = some nx ∧ s = (a : Int) ∧ follows vals l nx t := Iff.rfl

theorem follows_append {vals : List (ValueNode T)} {l₁ l₂ : List Nat} {s t : Int} :
    follows vals (l₁ ++ l₂) s t ↔
      ∃ m, follows vals l₁ s m ∧ follows vals l₂ m t := by
  induction l₁ generalizing s with
  | nil =>
    simp only [List.nil_append, follows_nil]
    constructor
    · intro h; exact ⟨s, rfl, h⟩
    · rintro ⟨m, rfl, h⟩; exact h
  | cons a l₁ ih =>
    simp only [List.cons_append, follows_cons, ih]
    constructor
    · rintro ⟨nx, hnx, rfl, m, h₁, h₂⟩
      exact ⟨m, ⟨nx, hnx, rfl, h₁⟩, h₂⟩
    · rintro ⟨m, ⟨nx, hnx, rfl, h₁⟩, h₂⟩
      exact ⟨nx, hnx, rfl, m, h₁, h₂⟩

theorem follows_unique {vals : List (ValueNode T)} {l₁ l₂ : List Nat} {s : Int}
    (h₁ : follows vals l₁ s EMPTY) (h₂ : follows vals l₂ s EMPTY) : l₁ = l₂ := by
  induction l₁ generalizing l₂ s with
  | nil =>
    cases l₂ with
    | nil => rfl
    | cons b l₂ =>
      rw [follows_nil] at h₁
      rw [follows_cons] at h₂
      obtain ⟨nx, _, rfl, _⟩ := h₂
      exact absurd h₁ (by simp only [EMPTY]; omega)
  | cons a l₁ ih =>
    cases l₂ with
    | nil =>
      rw [follows_nil] at h₂
      rw [follows_cons] at h₁
      obtain ⟨nx, _, rfl, _⟩ := h₁
      exact absurd h₂ (by simp only [EMPTY]; omega)
    | cons b l₂ =>
      rw [follows_cons] at h₁ h₂
      obtain ⟨nx, hnx, rfl, h₁'⟩ := h₁
      obtain ⟨nx', hnx', hb, h₂'⟩ := h₂
      have hab : b = a := by exact_mod_cast hb.symm
      subst hab
      rw [hnx] at hnx'
      cases hnx'
      rw [ih h₁' h₂']

theorem follows_suffix {vals : List (ValueNode T)} {l₁ l₂ : List Nat} {s : Int}
    (h : follows vals (l₁ ++ l₂) s EMPTY) : ∃ m, follows vals l₂ m EMPTY := by
  rw [follows_append] at h
  obtain ⟨m, _, h₂⟩ := h
  exact ⟨m, h₂⟩

theorem follows_nodup {vals : List (ValueNode T)} {l : List Nat} {s : Int}
    (h : follows vals l s EMPTY) : l.Nodup := by
  induction l generalizing s with
  | nil => exact List.nodup_nil
  | cons a l ih =>
    rw [follows_cons] at h
    obtain ⟨nx, hnx, rfl, h1⟩ := h
    refine List.nodup_cons.mpr ⟨?_, ih h1⟩
    intro hmem
    obtain ⟨l₁, l₂, rfl⟩ := List.append_of_mem hmem
    have h2 := h1
    rw [follows_append] at h2
    obtain ⟨m, hm₁, hm₂⟩ := h2
    rw [follows_cons] at hm₂
    obtain ⟨nx', hnx', rfl, hm₂'⟩ := hm₂
    rw [hnx] at hnx'
    cases hnx'
    have heq := follows_unique h1 hm₂'
    have hlen := congrArg List.length heq
    simp only [List.length_append, List.length_cons] at hlen
    omega

theorem follows_congr {vals vals' : List (ValueNode T)} {l : List Nat} {s t : Int}
    (hagree : ∀ a ∈ l, nextAt vals' a = nextAt vals a)
    (h : follows vals l s t) : follows vals' l s t := by
  induction l generalizing s with
  | nil => exact h
  | cons a l ih =>
    rw [follows_cons] at h ⊢
    obtain ⟨nx, hnx, rfl, h1⟩ := h
    refine ⟨nx, ?_, rfl, ih (fun b hb => hagree b (List.mem_cons_of_mem a hb)) h1⟩
    rw [hagree a (List.mem_cons_self a l), hnx]

theorem follows_mem_lt {vals : List (ValueNode T)} {l : List Nat} {s t : Int}
    (h : follows vals l s t) : ∀ a ∈ l, a < vals.length := by
  induction l generalizing s with
  | nil => simp
  | cons a l ih =>
    rw [follows_cons] at h
    obtain ⟨nx, hnx, rfl, h1⟩ := h
    intro b hb
    rcases List.mem_cons.mp hb with rfl | hb
    · unfold nextAt at hnx
      cases hv : vals[b]? with
      | none => rw [hv] at hnx; simp at hnx
      | some node => exact (List.getElem?_eq_some.mp hv).1
    · exact ih h1 b hb

theorem lastPtr_cons_of_ne {a : Nat} {l : List Nat} (h : l ≠ []) :
    lastPtr (a :: l) = lastPtr l := by
  cases l with
  | nil => exact absurd rfl h
  | cons b l => rfl

theorem lastPtr_append {l₁ l₂ : List Nat} (h : l₂ ≠ []) :
    lastPtr (l₁ ++ l₂) = lastPtr l₂ := by
  induction l₁ with
  | nil => rfl
  | cons a l₁ ih =>
    rw [List.cons_append, lastPtr_cons_of_ne, ih]
    exact fun hc => h (List.append_eq_nil.mp hc).2

theorem lastPtr_append_single {l : List Nat} {a : Nat} :
    lastPtr (l ++ [a]) = (a : Int) := by
  rw [lastPtr_append (by simp)]; rfl

theorem lastPtr_mem {l : List Nat} (h : l ≠ []) : ∃ a ∈ l, lastPtr l = (a : Int) := by
  induction l with
  | nil => exact absurd rfl h
  | cons a l ih =>
    cases l with
    | nil => exact ⟨a, by simp, rfl⟩
    | cons b l =>
      obtain ⟨c, hc, hc'⟩ := ih (by simp)
      exact ⟨c, List.mem_cons_of_mem a hc, by rw [lastPtr_cons_of_ne (by simp), hc']⟩

theorem lastPtr_nonneg_of_ne {l : List Nat} (h : l ≠ []) : 0 ≤ lastPtr l := by
  obtain ⟨a, _, ha⟩ := lastPtr_mem h
  rw [ha]; exact Int.ofNat_nonneg a

/-! ### Small `List.getD` helpers -/

theorem getD_set_self {α : Type} {l : List α} {i : Nat} {a d : α} (h : i < l.length) :
    (l.set i a).getD i d = a := by
  unfold List.getD
  rw [List.get?_eq_getElem?, List.getElem?_set_self (by simpa using h)]
  simp

theorem getD_set_ne {α : Type} {l : List α} {i j : Nat} {a d : α} (h : i ≠ j) :
    (l.set i a).getD j d = l.getD j d := by
  unfold List.getD
  rw [List.get?_eq_getElem?, List.get?_eq_getElem?, List.getElem?_set_ne h]

theorem getD_replicate {α : Type} {n i : Nat} {a d : α} (h : i < n) :
    (List.replicate n a).getD i d = a := by
  unfold List.getD
  rw [List.get?_eq_getElem?, List.getElem?_replicate]
  simp [h]

/-! ### Grid well-formedness

The invariant of §3 of the spec: per cell, the `first` pointer heads a finite
(acyclic, `EMPTY`-terminated) chain whose length is the stored `count` and
whose last element is the stored `last`, and chains of distinct cells are
disjoint. -/

/-- The per-cell part of the invariant, with `l` the cell's chain. -/
def cellWF (vals : List (ValueNode T)) (node : GridNode) (l : List Nat) : Prop :=
  follows vals l node.first EMPTY ∧ node.count = l.length ∧ node.last = lastPtr l

/-- The full grid invariant (claim C1's property). -/
def WF (g : Grid T) : Prop :=
  g.count = g.values.length ∧
  g.grid.length = g.rows * g.columns ∧
  ∃ ch : Nat → List Nat,
    (∀ c, c < g.grid.length → cellWF g.values (g.nodeAt c) (ch c)) ∧
    (∀ c c', c < g.grid.length → c' < g.grid.length → c ≠ c' →
      ∀ i, i ∈ ch c → i ∉ ch c')

theorem index_from_pos_ne_iff (g : Grid T) (row column : Int) :
    g.index_from_pos row column ≠ EMPTY ↔
      0 ≤ row ∧ row < (g.rows : Int) ∧ 0 ≤ column ∧ column < (g.columns : Int) := by
  unfold Grid.index_from_pos
  split
  case isTrue h =>
    have h1 : 0 ≤ row * (g.columns : Int) :=
      mul_nonneg h.1 (Int.ofNat_nonneg g.columns)
    simp only [ne_eq, EMPTY]
    constructor
    · intro _; exact h
    · intro _; omega
  case isFalse h => simp [EMPTY, h]

theorem index_from_pos_nonneg (g : Grid T) {row column : Int}
    (h : g.index_from_pos row column ≠ EMPTY) :
    0 ≤ g.index_from_pos row column := by
  have hb := (index_from_pos_ne_iff g row column).mp h
  unfold Grid.index_from_pos
  rw [if_pos ⟨hb.1, hb.2.1, hb.2.2.1, hb.2.2.2⟩]
  have h1 : 0 ≤ row * (g.columns : Int) :=
    mul_nonneg hb.1 (Int.ofNat_nonneg g.columns)
  omega

theorem index_from_pos_toNat_lt (g : Grid T) {row column : Int}
    (h : g.index_from_pos row column ≠ EMPTY) :
    (g.index_from_pos row column).toNat < g.rows * g.columns := by
  have hb := (index_from_pos_ne_iff g row column).mp h
  unfold Grid.index_from_pos
  rw [if_pos ⟨hb.1, hb.2.1, hb.2.2.1, hb.2.2.2⟩]
  have h1 : column + row * (g.columns : Int) < (g.rows : Int) * (g.columns : Int) := by
    nlinarith [hb.1, hb.2.1, hb.2.2.1, hb.2.2.2]
  have h2 : 0 ≤ row * (g.columns : Int) :=
    mul_nonneg hb.1 (Int.ofNat_nonneg g.columns)
  have h3 : ((g.rows * g.columns : Nat) : Int) = (g.rows : Int) * (g.columns : Int) := by
    push_cast; ring
  omega

theorem follows_empty_iff {vals : List (ValueNode T)} {l : List Nat}
    (h : follows vals l EMPTY EMPTY) : l = [] := by
  cases l with
  | nil => rfl
  | cons a l =>
    rw [follows_cons] at h
    obtain ⟨nx, _, ha, _⟩ := h
    exact absurd ha.symm (by simp only [EMPTY]; omega)

theorem follows_head_eq {vals : List (ValueNode T)} {a : Nat} {l : List Nat} {s t : Int}
    (h : follows vals (a :: l) s t) : s = (a : Int) := by
  rw [follows_cons] at h
  obtain ⟨nx, _, rfl, _⟩ := h
  rfl

/-- Behaviour of `Grid::add_val` on an in-grid cell: the fresh index is pushed
in front of the cell's chain; every other cell and every old `next` pointer is
untouched. -/
theorem add_val_spec (g : Grid T) (v : T) (row column : Int) {l : List Nat}
    (hcnt : g.count = g.values.length)
    (hlen : g.grid.length = g.rows * g.columns)
    (hne : g.index_from_pos row column ≠ EMPTY)
    (hch : follows g.values l (g.nodeAt (g.index_from_pos row column).toNat).first EMPTY) :
    ((g.add_val v row column).nodeAt (g.index_from_pos row column).toNat).first
        = (g.count : Int) ∧
    follows (g.add_val v row column).values (g.count :: l) (g.count : Int) EMPTY ∧
    ((g.add_val v row column).nodeAt (g.index_from_pos row column).toNat).count
        = (g.nodeAt (g.index_from_pos row column).toNat).count + 1 ∧
    ((g.add_val v row column).nodeAt (g.index_from_pos row column).toNat).last
        = (if l = [] then (g.count : Int)
           else (g.nodeAt (g.index_from_pos row column).toNat).last) ∧
    (∀ c : Nat, c ≠ (g.index_from_pos row column).toNat →
      (g.add_val v row column).nodeAt c = g.nodeAt c) ∧
    (g.add_val v row column).count = g.count + 1 ∧
    (g.add_val v row column).values.length = g.values.length + 1 ∧
    (∀ a, a < g.values.length →
      nextAt (g.add_val v row column).values a = nextAt g.values a) := by
  have hgi : (g.index_from_pos row column).toNat < g.grid.length := by
    rw [hlen]; exact index_from_pos_toNat_lt g hne
  have hframe : ∀ a, a < g.values.length →
      nextAt (g.add_val v row column).values a = nextAt g.values a := by
    intro a ha
    unfold Grid.add_val
    rw [if_pos hne]
    simp only [nextAt]
    rw [List.getElem?_append_left ha]
  have hvals : (g.add_val v row column).values
      = g.values ++ [{ next_index := (g.nodeAt (g.index_from_pos row column).toNat).first,
                       val := v }] := by
    unfold Grid.add_val
    rw [if_pos hne]
  have hnode : (g.add_val v row column).nodeAt (g.index_from_pos row column).toNat
      = { first := (g.count : Int)
          last := if (g.nodeAt (g.index_from_pos row column).toNat).first = EMPTY
                  then (g.count : Int)
                  else (g.nodeAt (g.index_from_pos row column).toNat).last
          count := (g.nodeAt (g.index_from_pos row column).toNat).count + 1 } := by
    unfold Grid.add_val
    rw [if_pos hne]
    simp only [Grid.nodeAt]
    exact getD_set_self hgi
  have hfirstEmpty : (g.nodeAt (g.index_from_pos row column).toNat).first = EMPTY ↔ l = [] := by
    constructor
    · intro he
      rw [he] at hch
      exact follows_empty_iff hch
    · rintro rfl
      exact hch
  have hfol : follows (g.add_val v row column).values (g.count :: l) (g.count : Int) EMPTY := by
    rw [follows_cons]
    refine ⟨(g.nodeAt (g.index_from_pos row column).toNat).first, ?_, rfl, ?_⟩
    · rw [hvals]
      simp only [nextAt]
      rw [hcnt, List.getElem?_concat_length]
      rfl
    · exact follows_congr
        (fun a ha => hframe a (follows_mem_lt hch a ha)) hch
  refine ⟨by rw [hnode], hfol, by rw [hnode], ?_, ?_, ?_, ?_, hframe⟩
  · rw [hnode]
    by_cases hl : l = []
    · rw [if_pos ((hfirstEmpty).mpr hl), if_pos hl]
    · rw [if_neg (fun hc => hl (hfirstEmpty.mp hc)), if_neg hl]
  · intro c hc
    unfold Grid.add_val
    rw [if_pos hne]
    simp only [Grid.nodeAt]
    exact getD_set_ne (fun he => hc he.symm)
  · unfold Grid.add_val; rw [if_pos hne]
  · rw [hvals]; simp

/-- Behaviour of `Grid::add_val` on an out-of-grid cell: only the arena grows. -/
theorem add_val_out_spec (g : Grid T) (v : T) (row column : Int)
    (hne : g.index_from_pos row column = EMPTY) :
    (g.add_val v row column).grid = g.grid ∧
    (g.add_val v row column).count = g.count + 1 ∧
    (g.add_val v row column).values.length = g.values.length + 1 ∧
    (∀ a, a < g.values.length →
      nextAt (g.add_val v row column).values a = nextAt g.values a) := by
  unfold Grid.add_val
  rw [if_neg (by simp [hne])]
  refine ⟨rfl, rfl, by simp, ?_⟩
  intro a ha
  simp only [nextAt]
  rw [List.getElem?_append_left ha]

theorem add_val_dims (g : Grid T) (v : T) (row column : Int) :
    (g.add_val v row column).rows = g.rows ∧
    (g.add_val v row column).columns = g.columns ∧
    (g.add_val v row column).grid.length = g.grid.length := by
  unfold Grid.add_val
  by_cases hne : g.index_from_pos row column ≠ EMPTY
  · rw [if_pos hne]; simp
  · rw [if_neg hne]; simp

/-- A freshly created grid satisfies the invariant. -/
theorem WF_newGrid (T : Type) (columns rows : Nat) : WF (Grid.newGrid T columns rows) := by
  refine ⟨rfl, by simp [Grid.newGrid, Nat.mul_comm], fun _ => [], ?_, ?_⟩
  · intro c hc
    have hc' : c < columns * rows := by simpa [Grid.newGrid] using hc
    have : (Grid.newGrid T columns rows).nodeAt c = emptyNode := by
      simp only [Grid.nodeAt, Grid.newGrid]
      exact getD_replicate hc'
    rw [this]
    exact ⟨rfl, rfl, rfl⟩
  · intro c c' _ _ _ i hi
    simp at hi

/-- The invariant is preserved by any `add_val` call. -/
theorem WF_add {g : Grid T} (v : T) (row column : Int) (h : WF g) :
    WF (g.add_val v row column) := by
  obtain ⟨hcnt, hlen, ch, hcell, hdis⟩ := h
  obtain ⟨hrows, hcols, hglen⟩ := add_val_dims g v row column
  by_cases hne : g.index_from_pos row column ≠ EMPTY
  · have hgilt : (g.index_from_pos row column).toNat < g.grid.length := by
      rw [hlen]; exact index_from_pos_toNat_lt g hne
    obtain ⟨hc₁, hc₂, hc₃⟩ := hcell _ hgilt
    obtain ⟨hfst, hfol, hcount, hlast, hother, hcnt', hvlen, hframe⟩ :=
      add_val_spec g v row column hcnt hlen hne hc₁
    set gi := (g.index_from_pos row column).toNat with hgi
    refine ⟨by rw [hcnt', hvlen, hcnt], by rw [hglen, hrows, hcols, hlen],
      fun c => if c = gi then g.count :: ch gi else ch c, ?_, ?_⟩
    · intro c hc
      rw [hglen] at hc
      beta_reduce
      by_cases hcgi : c = gi
      · subst hcgi
        rw [if_pos rfl]
        refine ⟨by rw [hfst]; exact hfol, ?_, ?_⟩
        · rw [hcount, hc₂]; rfl
        · rw [hlast]
          by_cases hl : ch gi = []
          · rw [if_pos hl, hl]; rfl
          · rw [if_neg hl, hc₃, lastPtr_cons_of_ne hl]
      · rw [if_neg hcgi, hother c hcgi]
        obtain ⟨hd₁, hd₂, hd₃⟩ := hcell c hc
        exact ⟨follows_congr (fun a ha => hframe a (follows_mem_lt hd₁ a ha)) hd₁, hd₂, hd₃⟩
    · intro c c' hc hc' hne' i hi hi'
      beta_reduce at hi hi'
      rw [hglen] at hc hc'
      have hmemlt : ∀ c₀, c₀ < g.grid.length → ∀ j ∈ ch c₀, j < g.values.length := by
        intro c₀ hc₀ j hj
        exact follows_mem_lt (hcell c₀ hc₀).1 j hj
      by_cases h1 : c = gi <;> by_cases h2 : c' = gi
      · exact absurd (h1.trans h2.symm) hne'
      · subst h1
        rw [if_pos rfl] at hi
        rw [if_neg h2] at hi'
        rcases List.mem_cons.mp hi with heq | hi
        · have := hmemlt c' hc' i hi'
          omega
        · exact hdis gi c' (by rwa [hlen] at hgilt) hc' hne' i hi hi'
      · subst h2
        rw [if_neg h1] at hi
        rw [if_pos rfl] at hi'
        rcases List.mem_cons.mp hi' with heq | hi'
        · have := hmemlt c hc i hi
          omega
        · exact hdis c gi hc (by rwa [hlen] at hgilt) hne' i hi hi'
      · rw [if_neg h1] at hi
        rw [if_neg h2] at hi'
        exact hdis c c' hc hc' hne' i hi hi'
  · push_neg at hne
    obtain ⟨hgrid, hcnt', hvlen, hframe⟩ := add_val_out_spec g v row column hne
    refine ⟨by rw [hcnt', hvlen, hcnt], by rw [hglen, hrows, hcols, hlen], ch, ?_, ?_⟩
    · intro c hc
      rw [hglen] at hc
      obtain ⟨hd₁, hd₂, hd₃⟩ := hcell c hc
      have hnode : (g.add_val v row column).nodeAt c = g.nodeAt c := by
        simp only [Grid.nodeAt, hgrid]
      rw [hnode]
      exact ⟨follows_congr (fun a ha => hframe a (follows_mem_lt hd₁ a ha)) hd₁, hd₂, hd₃⟩
    · intro c c' hc hc' hne' i hi hi'
      rw [hglen] at hc hc'
      exact hdis c c' hc hc' hne' i hi hi'

/-! ### Behaviour of `unlink_val` and `link_val` -/

theorem nextAt_set_ne {vals : List (ValueNode T)} {j a : Nat} {x : ValueNode T}
    (h : j ≠ a) : nextAt (vals.set j x) a = nextAt vals a := by
  simp only [nextAt]
  rw [List.getElem?_set_ne h]

theorem nextAt_set_self {vals : List (ValueNode T)} {j : Nat} {x : ValueNode T}
    (h : j < vals.length) : nextAt (vals.set j x) j = some x.next_index := by
  simp only [nextAt]
  rw [List.getElem?_set_self (by simpa using h)]
  rfl

theorem nextAt_lt {vals : List (ValueNode T)} {a : Nat} {nx : Int}
    (h : nextAt vals a = some nx) : a < vals.length := by
  unfold nextAt at h
  cases hv : vals[a]? with
  | none => rw [hv] at h; simp at h
  | some node => exact (List.getElem?_eq_some.mp hv).1

theorem follows_last_decomp {vals : List (ValueNode T)} {l : List Nat} {s t : Int}
    (h : follows vals l s t) (hne : l ≠ []) :
    ∃ (l' : List Nat) (p : Nat), l = l' ++ [p] ∧ lastPtr l = (p : Int) ∧
      nextAt vals p = some t ∧ follows vals l' s (p : Int) := by
  induction l generalizing s with
  | nil => exact absurd rfl hne
  | cons a l ih =>
    rw [follows_cons] at h
    obtain ⟨nx, hnx, rfl, h1⟩ := h
    cases l with
    | nil =>
      refine ⟨[], a, rfl, rfl, ?_, rfl⟩
      rw [follows_nil] at h1
      rw [hnx, h1]
    | cons b l =>
      obtain ⟨l', p, heq, hl, hn, hf⟩ := ih h1 (by simp)
      refine ⟨a :: l', p, by rw [heq]; rfl, ?_, hn, ?_⟩
      · rw [lastPtr_cons_of_ne (by simp), hl]
      · rw [follows_cons]
        exact ⟨nx, hnx, rfl, hf⟩

/-- Behaviour of `Grid::unlink_val` on an in-grid cell when the supplied
predecessor really is the in-chain predecessor of `index`: the call returns
normally, `index` is spliced out of the chain, the cell's `count` drops by one
and its `last` is fixed up, and nothing else changes. -/
theorem unlink_val_spec (g : Grid T) (index : Nat) (prev : Int) (row column : Int)
    {l₁ l₂ : List Nat}
    (hlen : g.grid.length = g.rows * g.columns)
    (hne : g.index_from_pos row column ≠ EMPTY)
    (hch : follows g.values (l₁ ++ index :: l₂)
      ((g.nodeAt (g.index_from_pos row column).toNat).first) EMPTY)
    (hlast : (g.nodeAt (g.index_from_pos row column).toNat).last
      = lastPtr (l₁ ++ index :: l₂))
    (hprev : prev = lastPtr l₁) :
    ∃ g', g.unlink_val index prev row column = some g' ∧
      follows g'.values (l₁ ++ l₂)
        ((g'.nodeAt (g.index_from_pos row column).toNat).first) EMPTY ∧
      (g'.nodeAt (g.index_from_pos row column).toNat).count
        = (g.nodeAt (g.index_from_pos row column).toNat).count - 1 ∧
      (g'.nodeAt (g.index_from_pos row column).toNat).last = lastPtr (l₁ ++ l₂) ∧
      (∀ c : Nat, c ≠ (g.index_from_pos row column).toNat → g'.nodeAt c = g.nodeAt c) ∧
      (∀ a : Nat, (a : Int) ≠ prev → nextAt g'.values a = nextAt g.values a) ∧
      (∀ j : Nat, (g'.values[j]?).map (·.val) = (g.values[j]?).map (·.val)) ∧
      g'.values.length = g.values.length ∧
      g'.count = g.count ∧ g'.rows = g.rows ∧ g'.columns = g.columns ∧
      g'.grid.length = g.grid.length := by
  have hgilt : (g.index_from_pos row column).toNat < g.grid.length := by
    rw [hlen]; exact index_from_pos_toNat_lt g hne
  have hnonneg := index_from_pos_nonneg g hne
  have hnodup := follows_nodup hch
  obtain ⟨hnd₁, hnd₂, hdisj⟩ := List.nodup_append.mp hnodup
  have hch2 := hch
  rw [follows_append] at hch2
  obtain ⟨m, h₁, h₂⟩ := hch2
  rw [follows_cons] at h₂
  obtain ⟨nx, hnxidx, hm, h₂'⟩ := h₂
  subst hm
  have hidxlt : index < g.values.length := nextAt_lt hnxidx
  obtain ⟨node, hnode, hnodenext⟩ : ∃ node, g.values[index]? = some node ∧
      node.next_index = nx := by
    unfold nextAt at hnxidx
    cases hv : g.values[index]? with
    | none => rw [hv] at hnxidx; simp at hnxidx
    | some nd => rw [hv] at hnxidx; exact ⟨nd, rfl, by simpa using hnxidx⟩
  have hidxnotl₂ : index ∉ l₂ := (List.nodup_cons.mp hnd₂).1
  set gi := (g.index_from_pos row column).toNat with hgi
  have hlast2 : (g.nodeAt gi).last = lastPtr (index :: l₂) := by
    rw [hlast, lastPtr_append (by simp)]
  have hcond : ((g.nodeAt gi).last = (index : Int)) ↔ l₂ = [] := by
    constructor
    · intro h
      by_contra hne2
      rw [hlast2, lastPtr_cons_of_ne hne2] at h
      obtain ⟨a, ha, ha'⟩ := lastPtr_mem hne2
      rw [ha'] at h
      have : a = index := by exact_mod_cast h
      exact hidxnotl₂ (this ▸ ha)
    · intro h
      subst h
      rw [hlast2]
      rfl
  have hlast' : (if (g.nodeAt gi).last = (index : Int) then prev else (g.nodeAt gi).last)
      = lastPtr (l₁ ++ l₂) := by
    by_cases h2 : l₂ = []
    · rw [if_pos (hcond.mpr h2), h2, List.append_nil, hprev]
    · rw [if_neg (fun hc => h2 (hcond.mp hc)), hlast2, lastPtr_cons_of_ne h2,
        lastPtr_append h2]
  by_cases hl1 : l₁ = []
  · subst hl1
    have hprev2 : prev = EMPTY := by rw [hprev]; rfl
    subst hprev2
    rw [follows_nil] at h₁
    refine ⟨{ g with grid := g.grid.set gi { first := node.next_index, last := if (g.nodeAt gi).last = (index : Int) then EMPTY else (g.nodeAt gi).last, count := (g.nodeAt gi).count - 1 } }, ?_, ?_, ?_, ?_, ?_, ?_, ?_, ?_, ?_, ?_, ?_, ?_⟩
    · unfold Grid.unlink_val
      rw [if_pos hnonneg, hnode]
      dsimp only
      rw [if_pos rfl, if_neg (by rw [← h₁]; exact not_not_intro rfl)]
    · simp only [Grid.nodeAt, getD_set_self hgilt]
      rw [hnodenext]
      exact h₂'
    · simp only [Grid.nodeAt, getD_set_self hgilt]
    · simp only [Grid.nodeAt, getD_set_self hgilt]
      exact hlast'
    · intro c hc
      simp only [Grid.nodeAt]
      rw [getD_set_ne (fun he => hc he.symm)]
    · intro a _
      rfl
    · intro j
      rfl
    · rfl
    · rfl
    · rfl
    · rfl
    · simp
  · obtain ⟨l₁', p, hdecomp, hlp, hpn, hfol'⟩ := follows_last_decomp h₁ hl1
    have hprev2 : prev = (p : Int) := by rw [hprev, hlp]
    subst hprev2
    have hplt : p < g.values.length := nextAt_lt hpn
    obtain ⟨pnode, hpnode, hpnodenext⟩ : ∃ pn, g.values[p]? = some pn ∧
        pn.next_index = (index : Int) := by
      unfold nextAt at hpn
      cases hv : g.values[p]? with
      | none => rw [hv] at hpn; simp at hpn
      | some nd => rw [hv] at hpn; exact ⟨nd, rfl, by simpa using hpn⟩
    have hpmem : p ∈ l₁ := by rw [hdecomp]; simp
    have hpnotr : p ∉ index :: l₂ := hdisj hpmem
    have hpne : p ≠ index := fun h => hpnotr (h ▸ List.mem_cons_self index l₂)
    have hpnotl₂ : p ∉ l₂ := fun h => hpnotr (List.mem_cons_of_mem index h)
    have hpnotl₁' : p ∉ l₁' := by
      rw [hdecomp] at hnd₁
      have := List.nodup_append.mp hnd₁
      intro hc
      exact this.2.2 hc (List.mem_singleton_self p)
    have hfols : follows (g.values.set p { pnode with next_index := node.next_index })
        (l₁ ++ l₂) ((g.nodeAt gi).first) EMPTY := by
      have hf₁ : follows (g.values.set p { pnode with next_index := node.next_index })
          l₁' ((g.nodeAt gi).first) (p : Int) :=
        follows_congr (fun a ha => nextAt_set_ne (fun he => hpnotl₁' (he ▸ ha))) hfol'
      have hf₂ : follows (g.values.set p { pnode with next_index := node.next_index })
          [p] (p : Int) nx := by
        rw [follows_cons]
        refine ⟨nx, ?_, rfl, rfl⟩
        rw [nextAt_set_self hplt]
        simp [hnodenext]
      have hf₃ : follows (g.values.set p { pnode with next_index := node.next_index })
          l₂ nx EMPTY :=
        follows_congr (fun a ha => nextAt_set_ne (fun he => hpnotl₂ (he ▸ ha))) h₂'
      have hjoin : follows (g.values.set p { pnode with next_index := node.next_index })
          ((l₁' ++ [p]) ++ l₂) ((g.nodeAt gi).first) EMPTY := by
        rw [follows_append]
        refine ⟨nx, ?_, hf₃⟩
        rw [follows_append]
        exact ⟨(p : Int), hf₁, hf₂⟩
      rw [hdecomp]
      exact hjoin
    refine ⟨{ g with values := g.values.set p { pnode with next_index := node.next_index }, grid := g.grid.set gi { first := (g.nodeAt gi).first, last := if (g.nodeAt gi).last = (index : Int) then (p : Int) else (g.nodeAt gi).last, count := (g.nodeAt gi).count - 1 } }, ?_, ?_, ?_, ?_, ?_, ?_, ?_, ?_, ?_, ?_, ?_, ?_⟩
    · unfold Grid.unlink_val
      rw [if_pos hnonneg, hnode]
      dsimp only
      rw [if_neg (by simp only [EMPTY]; omega), if_neg (by omega)]
      rw [show ((p : Int)).toNat = p from Int.toNat_natCast p, hpnode]
      dsimp only
      rw [if_neg (by rw [hpnodenext]; exact not_not_intro rfl)]
    · simp only [Grid.nodeAt, getD_set_self hgilt]
      exact hfols
    · simp only [Grid.nodeAt, getD_set_self hgilt]
    · simp only [Grid.nodeAt, getD_set_self hgilt]
      exact hlast'
    · intro c hc
      simp only [Grid.nodeAt]
      rw [getD_set_ne (fun he => hc he.symm)]
    · intro a ha
      exact nextAt_set_ne (fun he => ha (by rw [he]))
    · intro j
      by_cases hj : j = p
      · subst hj
        simp only
        rw [List.getElem?_set_self (by simpa using hplt), hpnode]
        rfl
      · simp only
        rw [List.getElem?_set_ne (fun he => hj he.symm)]
    · simp
    · rfl
    · rfl
    · rfl
    · simp

/-- Behaviour of `Grid::link_val` on an in-grid cell when `index` is a live
arena slot not currently in the cell's chain: the call returns normally and
appends `index` at the tail of the chain. -/
theorem link_val_spec (g : Grid T) (index : Nat) (row column : Int) {l : List Nat}
    (hlen : g.grid.length = g.rows * g.columns)
    (hne : g.index_from_pos row column ≠ EMPTY)
    (hch : follows g.values l ((g.nodeAt (g.index_from_pos row column).toNat).first) EMPTY)
    (hlast : (g.nodeAt (g.index_from_pos row column).toNat).last = lastPtr l)
    (hidx : index < g.values.length)
    (hnotin : index ∉ l) :
    ∃ g', g.link_val index row column = some g' ∧
      follows g'.values (l ++ [index])
        ((g'.nodeAt (g.index_from_pos row column).toNat).first) EMPTY ∧
      (g'.nodeAt (g.index_from_pos row column).toNat).count
        = (g.nodeAt (g.index_from_pos row column).toNat).count + 1 ∧
      (g'.nodeAt (g.index_from_pos row column).toNat).last = (index : Int) ∧
      (∀ c : Nat, c ≠ (g.index_from_pos row column).toNat → g'.nodeAt c = g.nodeAt c) ∧
      (∀ a : Nat, a ≠ index → (a : Int) ≠ lastPtr l →
        nextAt g'.values a = nextAt g.values a) ∧
      (∀ j : Nat, (g'.values[j]?).map (·.val) = (g.values[j]?).map (·.val)) ∧
      g'.values.length = g.values.length ∧
      g'.count = g.count ∧ g'.rows = g.rows ∧ g'.columns = g.columns ∧
      g'.grid.length = g.grid.length := by
  have hgilt : (g.index_from_pos row column).toNat < g.grid.length := by
    rw [hlen]; exact index_from_pos_toNat_lt g hne
  set gi := (g.index_from_pos row column).toNat with hgi
  obtain ⟨node, hnode⟩ : ∃ nd, g.values[index]? = some nd :=
    ⟨g.values[index], List.getElem?_eq_getElem hidx⟩
  by_cases hl : l = []
  · subst hl
    rw [follows_nil] at hch
    have hlastE : (g.nodeAt gi).last = EMPTY := by rw [hlast]; rfl
    refine ⟨{ g with values := g.values.set index { node with next_index := EMPTY }, grid := g.grid.set gi { first := (index : Int), last := (index : Int), count := (g.nodeAt gi).count + 1 } }, ?_, ?_, ?_, ?_, ?_, ?_, ?_, ?_, ?_, ?_, ?_, ?_⟩
    · unfold Grid.link_val
      rw [if_pos hne, hnode]
      dsimp only
      rw [hlastE, if_neg (by simp only [EMPTY]; omega)]
    · simp only [Grid.nodeAt, getD_set_self hgilt]
      simp only [List.nil_append]
      rw [follows_cons]
      refine ⟨EMPTY, ?_, rfl, rfl⟩
      rw [nextAt_set_self hidx]
    · simp only [Grid.nodeAt, getD_set_self hgilt]
    · simp only [Grid.nodeAt, getD_set_self hgilt]
    · intro c hc
      simp only [Grid.nodeAt]
      rw [getD_set_ne (fun he => hc he.symm)]
    · intro a ha _
      exact nextAt_set_ne (fun he => ha he.symm)
    · intro j
      by_cases hj : j = index
      · subst hj
        simp only
        rw [List.getElem?_set_self (by simpa using hidx), hnode]
        rfl
      · simp only
        rw [List.getElem?_set_ne (fun he => hj he.symm)]
    · simp
    · rfl
    · rfl
    · rfl
    · simp
  · obtain ⟨l', q, hdecomp, hlq, hqn, hfol'⟩ := follows_last_decomp hch hl
    have hqlt : q < g.values.length := nextAt_lt hqn
    have hqmem : q ∈ l := by rw [hdecomp]; simp
    have hqne : q ≠ index := fun h => hnotin (h ▸ hqmem)
    have hnd := follows_nodup hch
    have hqnotl' : q ∉ l' := by
      rw [hdecomp] at hnd
      have := List.nodup_append.mp hnd
      intro hc
      exact this.2.2 hc (List.mem_singleton_self q)
    have hidxnotl' : index ∉ l' := fun hc => hnotin (by rw [hdecomp]; exact List.mem_append_left _ hc)
    obtain ⟨qnode, hqnode⟩ : ∃ nd, g.values[q]? = some nd :=
      ⟨g.values[q], List.getElem?_eq_getElem hqlt⟩
    have hlastq : (g.nodeAt gi).last = (q : Int) := by rw [hlast, hlq]
    have hq1 : (g.values.set index { node with next_index := EMPTY })[q]? = some qnode := by
      rw [List.getElem?_set_ne (fun he => hqne he.symm), hqnode]
    refine ⟨{ g with values := (g.values.set index { node with next_index := EMPTY }).set q { qnode with next_index := (index : Int) }, grid := g.grid.set gi { (g.nodeAt gi) with last := (index : Int), count := (g.nodeAt gi).count + 1 } }, ?_, ?_, ?_, ?_, ?_, ?_, ?_, ?_, ?_, ?_, ?_, ?_⟩
    · unfold Grid.link_val
      rw [if_pos hne, hnode]
      dsimp only
      rw [hlastq, if_pos (Int.ofNat_nonneg q)]
      rw [show ((q : Int)).toNat = q from Int.toNat_natCast q, hq1]
    · simp only [Grid.nodeAt, getD_set_self hgilt]
      have hval2 : ((g.values.set index { node with next_index := EMPTY }).set q
          { qnode with next_index := (index : Int) }).length = g.values.length := by simp
      have hf₁ : follows ((g.values.set index { node with next_index := EMPTY }).set q
          { qnode with next_index := (index : Int) }) l' ((g.nodeAt gi).first) (q : Int) := by
        refine follows_congr (fun a ha => ?_) hfol'
        rw [nextAt_set_ne (fun he => hqnotl' (by rw [he]; exact ha)),
          nextAt_set_ne (fun he => hidxnotl' (by rw [he]; exact ha))]
      have hf₂ : follows ((g.values.set index { node with next_index := EMPTY }).set q
          { qnode with next_index := (index : Int) }) [q] (q : Int) (index : Int) := by
        rw [follows_cons]
        refine ⟨(index : Int), ?_, rfl, rfl⟩
        rw [nextAt_set_self (show q < (g.values.set index { node with next_index := EMPTY }).length by simpa using hqlt)]
      have hf₃ : follows ((g.values.set index { node with next_index := EMPTY }).set q
          { qnode with next_index := (index : Int) }) [index] (index : Int) EMPTY := by
        rw [follows_cons]
        refine ⟨EMPTY, ?_, rfl, rfl⟩
        rw [nextAt_set_ne hqne, nextAt_set_self hidx]
      have hjoin : follows ((g.values.set index { node with next_index := EMPTY }).set q
          { qnode with next_index := (index : Int) })
          ((l' ++ [q]) ++ [index]) ((g.nodeAt gi).first) EMPTY := by
        rw [follows_append]
        refine ⟨(index : Int), ?_, hf₃⟩
        rw [follows_append]
        exact ⟨(q : Int), hf₁, hf₂⟩
      rw [hdecomp]
      exact hjoin
    · simp only [Grid.nodeAt, getD_set_self hgilt]
    · simp only [Grid.nodeAt, getD_set_self hgilt]
    · intro c hc
      simp only [Grid.nodeAt]
      rw [getD_set_ne (fun he => hc he.symm)]
    · intro a ha ha2
      rw [hlq] at ha2
      have haq : a ≠ q := fun he => ha2 (by rw [he])
      rw [nextAt_set_ne haq.symm, nextAt_set_ne (fun he => ha he.symm)]
    · intro j
      by_cases hjq : j = q
      · subst hjq
        simp only
        rw [List.getElem?_set_self (by simpa using hqlt), hqnode]
        rfl
      · by_cases hji : j = index
        · subst hji
          simp only
          rw [List.getElem?_set_ne (fun he => hjq he.symm),
            List.getElem?_set_self (by simpa using hidx), hnode]
          rfl
        · simp only
          rw [List.getElem?_set_ne (fun he => hjq he.symm),
            List.getElem?_set_ne (fun he => hji he.symm)]
    · simp
    · rfl
    · rfl
    · rfl
    · simp

/-- An out-of-grid `unlink_val` is a no-op and never panics (claim C10). -/
theorem unlink_val_out (g : Grid T) (index : Nat) (prev row column : Int)
    (h : g.index_from_pos row column = EMPTY) :
    g.unlink_val index prev row column = some g := by
  unfold Grid.unlink_val
  rw [if_neg (by rw [h]; simp only [EMPTY]; omega)]

/-- An out-of-grid `link_val` is a no-op and never panics (claim C10). -/
theorem link_val_out (g : Grid T) (index : Nat) (row column : Int)
    (h : g.index_from_pos row column = EMPTY) :
    g.link_val index row column = some g := by
  unfold Grid.link_val
  rw [if_neg (by rw [h]; simp)]

/-- The invariant is preserved by `unlink_val` whenever the supplied
predecessor is the in-chain predecessor of `index` in the named cell (or the
cell is out of grid, in which case the call is a no-op). -/
theorem WF_unlink {g : Grid T} {index : Nat} {prev row column : Int} (h : WF g)
    (hcp : g.index_from_pos row column ≠ EMPTY →
      ∃ l₁ l₂, follows g.values (l₁ ++ index :: l₂)
        ((g.nodeAt (g.index_from_pos row column).toNat).first) EMPTY ∧
        prev = lastPtr l₁) :
    ∃ g', g.unlink_val index prev row column = some g' ∧ WF g' := by
  by_cases hne : g.index_from_pos row column ≠ EMPTY
  · obtain ⟨hcnt, hlen, ch, hcell, hdis⟩ := h
    obtain ⟨l₁, l₂, hch, hprev⟩ := hcp hne
    have hgilt : (g.index_from_pos row column).toNat < g.grid.length := by
      rw [hlen]; exact index_from_pos_toNat_lt g hne
    obtain ⟨hm₁, hm₂, hm₃⟩ := hcell _ hgilt
    have hid : ch (g.index_from_pos row column).toNat = l₁ ++ index :: l₂ :=
      follows_unique hm₁ hch
    have hlast : (g.nodeAt (g.index_from_pos row column).toNat).last
        = lastPtr (l₁ ++ index :: l₂) := by rw [← hid]; exact hm₃
    obtain ⟨g', heval, hfol, hcount, hlast', hcells, hnext, hvals, hvlen, hcnt2,
      hrows, hcols, hglen⟩ :=
      unlink_val_spec g index prev row column hlen hne hch hlast hprev
    set gi := (g.index_from_pos row column).toNat with hgi
    have hanep : ∀ c, c < g.grid.length → c ≠ gi → ∀ a ∈ ch c, (a : Int) ≠ prev := by
      intro c hc hcgi a ha heq
      by_cases hl1 : l₁ = []
      · rw [hprev, hl1] at heq
        simp only [lastPtr, EMPTY] at heq
        omega
      · obtain ⟨p, hp, hp'⟩ := lastPtr_mem hl1
        rw [hprev, hp'] at heq
        have hap : a = p := by exact_mod_cast heq
        have hpch : p ∈ ch gi := by rw [hid]; exact List.mem_append_left _ hp
        exact hdis c gi hc hgilt hcgi a ha (hap ▸ hpch)
    refine ⟨g', heval, by rw [hcnt2, hvlen, hcnt],
      by rw [hglen, hrows, hcols, hlen],
      fun c => if c = gi then l₁ ++ l₂ else ch c, ?_, ?_⟩
    · intro c hc
      rw [hglen] at hc
      beta_reduce
      by_cases hcgi : c = gi
      · subst hcgi
        rw [if_pos rfl]
        refine ⟨hfol, ?_, hlast'⟩
        rw [hcount, hm₂, hid]
        simp only [List.length_append, List.length_cons]
        omega
      · rw [if_neg hcgi, hcells c hcgi]
        obtain ⟨hd₁, hd₂, hd₃⟩ := hcell c hc
        exact ⟨follows_congr (fun a ha => hnext a (hanep c hc hcgi a ha)) hd₁, hd₂, hd₃⟩
    · intro c c' hc hc' hne' i hi hi'
      beta_reduce at hi hi'
      rw [hglen] at hc hc'
      have hsub : ∀ i, i ∈ l₁ ++ l₂ → i ∈ ch gi := by
        intro j hj
        rw [hid]
        rcases List.mem_append.mp hj with hj | hj
        · exact List.mem_append_left _ hj
        · exact List.mem_append_right _ (List.mem_cons_of_mem index hj)
      by_cases h1 : c = gi <;> by_cases h2 : c' = gi
      · exact absurd (h1.trans h2.symm) hne'
      · subst h1
        rw [if_pos rfl] at hi
        rw [if_neg h2] at hi'
        exact hdis gi c' hgilt hc' hne' i (hsub i hi) hi'
      · subst h2
        rw [if_neg h1] at hi
        rw [if_pos rfl] at hi'
        exact hdis c gi hc hgilt hne' i hi (hsub i hi')
      · rw [if_neg h1] at hi
        rw [if_neg h2] at hi'
        exact hdis c c' hc hc' hne' i hi hi'
  · push_neg at hne
    exact ⟨g, unlink_val_out g index prev row column hne, h⟩

/-- The invariant is preserved by `link_val` whenever `index` is a live arena
slot not currently resident in any cell's chain (or the cell is out of grid,
in which case the call is a no-op). -/
theorem WF_link {g : Grid T} {index : Nat} {row column : Int} (h : WF g)
    (hok : g.index_from_pos row column ≠ EMPTY →
      index < g.values.length ∧
      (∀ c, c < g.grid.length → ∀ l, follows g.values l ((g.nodeAt c).first) EMPTY →
        index ∉ l)) :
    ∃ g', g.link_val index row column = some g' ∧ WF g' := by
  by_cases hne : g.index_from_pos row column ≠ EMPTY
  · obtain ⟨hcnt, hlen, ch, hcell, hdis⟩ := h
    obtain ⟨hidx, hnotin⟩ := hok hne
    have hgilt : (g.index_from_pos row column).toNat < g.grid.length := by
      rw [hlen]; exact index_from_pos_toNat_lt g hne
    obtain ⟨hm₁, hm₂, hm₃⟩ := hcell _ hgilt
    obtain ⟨g', heval, hfol, hcount, hlast', hcells, hnext, hvals, hvlen, hcnt2,
      hrows, hcols, hglen⟩ :=
      link_val_spec g index row column hlen hne hm₁ hm₃ hidx
        (hnotin _ hgilt _ hm₁)
    set gi := (g.index_from_pos row column).toNat with hgi
    have hframe : ∀ c, c < g.grid.length → c ≠ gi → ∀ a ∈ ch c,
        nextAt g'.values a = nextAt g.values a := by
      intro c hc hcgi a ha
      refine hnext a (fun he => hnotin c hc _ (hcell c hc).1 (he ▸ ha)) ?_
      intro heq
      by_cases hl : ch gi = []
      · rw [hl] at heq
        simp only [lastPtr, EMPTY] at heq
        omega
      · obtain ⟨p, hp, hp'⟩ := lastPtr_mem hl
        rw [hp'] at heq
        have hap : a = p := by exact_mod_cast heq
        exact hdis c gi hc hgilt hcgi a ha (hap ▸ hp)
    refine ⟨g', heval, by rw [hcnt2, hvlen, hcnt],
      by rw [hglen, hrows, hcols, hlen],
      fun c => if c = gi then ch gi ++ [index] else ch c, ?_, ?_⟩
    · intro c hc
      rw [hglen] at hc
      beta_reduce
      by_cases hcgi : c = gi
      · subst hcgi
        rw [if_pos rfl]
        refine ⟨hfol, ?_, ?_⟩
        · rw [hcount, hm₂]
          simp
        · rw [hlast', lastPtr_append_single]
      · rw [if_neg hcgi, hcells c hcgi]
        obtain ⟨hd₁, hd₂, hd₃⟩ := hcell c hc
        exact ⟨follows_congr (fun a ha => hframe c hc hcgi a ha) hd₁, hd₂, hd₃⟩
    · intro c c' hc hc' hne' i hi hi'
      beta_reduce at hi hi'
      rw [hglen] at hc hc'
      by_cases h1 : c = gi <;> by_cases h2 : c' = gi
      · exact absurd (h1.trans h2.symm) hne'
      · subst h1
        rw [if_pos rfl] at hi
        rw [if_neg h2] at hi'
        rcases List.mem_append.mp hi with hi | hi
        · exact hdis gi c' hgilt hc' hne' i hi hi'
        · have : i = index := by simpa using hi
          subst this
          exact hnotin c' hc' _ (hcell c' hc').1 hi'
      · subst h2
        rw [if_neg h1] at hi
        rw [if_pos rfl] at hi'
        rcases List.mem_append.mp hi' with hi' | hi'
        · exact hdis c gi hc hgilt hne' i hi hi'
        · have : i = index := by simpa using hi'
          subst this
          exact hnotin c hc _ (hcell c hc).1 hi
      · rw [if_neg h1] at hi
        rw [if_neg h2] at hi'
        exact hdis c c' hc hc' hne' i hi hi'
  · push_neg at hne
    exact ⟨g, link_val_out g index row column hne, h⟩

/-! ### Claims C3, C4, C10 -/

/-- The contract of `unlink_val` on an in-grid cell (used by claim C4): the
call panics exactly on a wrong predecessor; on success the cell's count drops
by one and no other cell changes; and when the predecessor is the true
in-chain predecessor, `index` is removed from the cell's chain. -/
def unlinkContract (g : Grid T) (index : Nat) (prev : Int) (row column : Int) : Prop :=
  (g.unlink_val index prev row column = none ↔
    ((prev = EMPTY ∧ (g.nodeAt (g.index_from_pos row column).toNat).first ≠ (index : Int)) ∨
     (prev ≠ EMPTY ∧ nextAt g.values prev.toNat ≠ some (index : Int)))) ∧
  (∀ g', g.unlink_val index prev row column = some g' →
    ((g'.nodeAt (g.index_from_pos row column).toNat).count
      = (g.nodeAt (g.index_from_pos row column).toNat).count - 1 ∧
     (∀ c : Nat, c ≠ (g.index_from_pos row column).toNat → g'.nodeAt c = g.nodeAt c))) ∧
  (∀ l₁ l₂ : List Nat, follows g.values (l₁ ++ index :: l₂)
      ((g.nodeAt (g.index_from_pos row column).toNat).first) EMPTY →
    (g.nodeAt (g.index_from_pos row column).toNat).last = lastPtr (l₁ ++ index :: l₂) →
    prev = lastPtr l₁ →
    ∃ g', g.unlink_val index prev row column = some g' ∧
      follows g'.values (l₁ ++ l₂)
        ((g'.nodeAt (g.index_from_pos row column).toNat).first) EMPTY)

/-- C4 (amended): for an in-grid cell, a valid arena `index`, and a `prev`
that is `EMPTY` or a valid arena index, `unlink_val` panics iff the supplied
predecessor is wrong (`prev = EMPTY` but the cell's head is not `index`, or
`prev`'s next pointer is not `index`); otherwise it returns normally with the
cell's count decremented and all other cells untouched, and — when `prev` is
the in-chain predecessor of `index` in that cell — with `index` removed from
the cell's chain. -/
theorem C4_unlink_contract {T : Type} (g : Grid T) (index : Nat) (prev : Int)
    (row column : Int)
    (hlen : g.grid.length = g.rows * g.columns)
    (hne : g.index_from_pos row column ≠ EMPTY)
    (hidx : index < g.values.length)
    (hprev : prev = EMPTY ∨ (0 ≤ prev ∧ prev.toNat < g.values.length)) :
    unlinkContract g index prev row column := by
  obtain ⟨node, hnode⟩ : ∃ nd, g.values[index]? = some nd :=
    ⟨g.values[index], List.getElem?_eq_getElem hidx⟩
  have hnonneg := index_from_pos_nonneg g hne
  have hgilt : (g.index_from_pos row column).toNat < g.grid.length := by
    rw [hlen]; exact index_from_pos_toNat_lt g hne
  refine ⟨?_, ?_, ?_⟩
  · rcases hprev with hpE | ⟨hp0, hplt⟩
    · subst hpE
      unfold Grid.unlink_val
      rw [if_pos hnonneg, hnode]
      dsimp only
      rw [if_pos rfl]
      by_cases hf : (g.nodeAt (g.index_from_pos row column).toNat).first = (index : Int)
      · rw [if_neg (not_not_intro hf)]
        simp [hf]
      · rw [if_pos hf]
        simp [hf]
    · have hpne : prev ≠ EMPTY := by simp only [EMPTY]; omega
      unfold Grid.unlink_val
      rw [if_pos hnonneg, hnode]
      dsimp only
      rw [if_neg hpne, if_neg (by omega)]
      obtain ⟨pnode, hpnode⟩ : ∃ pn, g.values[prev.toNat]? = some pn :=
        ⟨g.values[prev.toNat], List.getElem?_eq_getElem hplt⟩
      rw [hpnode]
      dsimp only
      have hna : nextAt g.values prev.toNat = some pnode.next_index := by
        unfold nextAt
        rw [hpnode]
        rfl
      by_cases hpn : pnode.next_index = (index : Int)
      · rw [if_neg (not_not_intro hpn)]
        simp [hpne, hna, hpn]
      · rw [if_pos hpn]
        simp [hpne, hna, hpn]
  · intro g' hg'
    rcases hprev with hpE | ⟨hp0, hplt⟩
    · subst hpE
      unfold Grid.unlink_val at hg'
      rw [if_pos hnonneg, hnode] at hg'
      dsimp only at hg'
      rw [if_pos rfl] at hg'
      by_cases hf : (g.nodeAt (g.index_from_pos row column).toNat).first = (index : Int)
      · rw [if_neg (not_not_intro hf)] at hg'
        cases Option.some.inj hg'
        constructor
        · simp only [Grid.nodeAt, getD_set_self hgilt]
        · intro c hc
          simp only [Grid.nodeAt]
          rw [getD_set_ne (fun he => hc he.symm)]
      · rw [if_pos hf] at hg'
        exact absurd hg' (by simp)
    · have hpne : prev ≠ EMPTY := by simp only [EMPTY]; omega
      unfold Grid.unlink_val at hg'
      rw [if_pos hnonneg, hnode] at hg'
      dsimp only at hg'
      rw [if_neg hpne, if_neg (by omega)] at hg'
      obtain ⟨pnode, hpnode⟩ : ∃ pn, g.values[prev.toNat]? = some pn :=
        ⟨g.values[prev.toNat], List.getElem?_eq_getElem hplt⟩
      rw [hpnode] at hg'
      dsimp only at hg'
      by_cases hpn : pnode.next_index = (index : Int)
      · rw [if_neg (not_not_intro hpn)] at hg'
        cases Option.some.inj hg'
        constructor
        · simp only [Grid.nodeAt, getD_set_self hgilt]
        · intro c hc
          simp only [Grid.nodeAt]
          rw [getD_set_ne (fun he => hc he.symm)]
      · rw [if_pos hpn] at hg'
        exact absurd hg' (by simp)
  · intro l₁ l₂ hch hlast hp
    obtain ⟨g', heval, hfol, _⟩ :=
      unlink_val_spec g index prev row column hlen hne hch hlast hp
    exact ⟨g', heval, hfol⟩

/-- Witness for C4 at a concrete one-cell grid holding the single chain `[0]`. -/
theorem C4_unlink_contract_witness :
    (((Grid.newGrid Unit 1 1).add_val () 0 0).grid.length
      = ((Grid.newGrid Unit 1 1).add_val () 0 0).rows
        * ((Grid.newGrid Unit 1 1).add_val () 0 0).columns) ∧
    (((Grid.newGrid Unit 1 1).add_val () 0 0).index_from_pos 0 0 ≠ EMPTY) ∧
    (0 < ((Grid.newGrid Unit 1 1).add_val () 0 0).values.length) ∧
    unlinkContract ((Grid.newGrid Unit 1 1).add_val () 0 0) 0 EMPTY 0 0 :=
  ⟨by decide, by decide, by decide,
    C4_unlink_contract ((Grid.newGrid Unit 1 1).add_val () 0 0) 0 EMPTY 0 0
      (by decide) (by decide) (by decide) (Or.inl rfl)⟩

/-- A deliberately cross-linked grid: cell 0 holds the chain `[0, 2]`, cell 1
holds `[1, 2]` (arena slot 2 is claimed by both cells). -/
def gC4 : Grid Unit :=
  { values := [⟨2, ()⟩, ⟨2, ()⟩, ⟨-1, ()⟩]
    grid := [⟨0, 2, 2⟩, ⟨1, 2, 2⟩]
    count := 3
    rows := 1
    columns := 2 }

/-- C4 as stated is false on some grid: on `gC4`, `prev = 1` is a valid arena
index whose next pointer is `index = 2` (so the predecessor is "correct" in
the claim's sense), the call on cell `(0,0)` returns normally — yet index 2 is
still in that cell's chain `[0, 2]` afterwards, so it was not unlinked from
the named cell. -/
theorem C4_counterexample :
    nextAt gC4.values 1 = some 2 ∧
    (∃ g', gC4.unlink_val 2 1 0 0 = some g' ∧
      follows g'.values [0, 2] ((g'.nodeAt 0).first) EMPTY ∧
      (2 : Nat) ∈ ([0, 2] : List Nat)) := by
  refine ⟨rfl, ⟨{ gC4 with values := [⟨2, ()⟩, ⟨-1, ()⟩, ⟨-1, ()⟩], grid := [⟨0, 1, 1⟩, ⟨1, 2, 2⟩] }, by decide, ?_, by decide⟩⟩
  exact ⟨2, rfl, rfl, ⟨-1, rfl, rfl, rfl⟩⟩

/-- What `add_val` does to the target cell (used by claim C3): the fresh index
`g.count` becomes the cell's head, the old chain keeps its order as the tail,
the count grows by one, and `last` is the fresh index only when the cell was
empty. -/
def addPrepends (g : Grid T) (v : T) (row column : Int) (l : List Nat) : Prop :=
  ((g.add_val v row column).nodeAt (g.index_from_pos row column).toNat).first
      = (g.count : Int) ∧
  follows (g.add_val v row column).values (g.count :: l) (g.count : Int) EMPTY ∧
  ((g.add_val v row column).nodeAt (g.index_from_pos row column).toNat).count
      = (g.nodeAt (g.index_from_pos row column).toNat).count + 1 ∧
  ((g.add_val v row column).nodeAt (g.index_from_pos row column).toNat).last
      = (if l = [] then (g.count : Int)
         else (g.nodeAt (g.index_from_pos row column).toNat).last)

/-- C3 (amended): `add_val` on an in-grid cell prepends at the head: the new
arena index becomes the cell's `first`, the previous chain follows it
unchanged (so relative order is kept), the cell's count increases by exactly
one, and the cell's `last` equals the new index only when the cell was empty. -/
theorem C3_add_val_prepends {T : Type} (g : Grid T) (v : T) (row column : Int)
    (l : List Nat)
    (hcnt : g.count = g.values.length)
    (hlen : g.grid.length = g.rows * g.columns)
    (hne : g.index_from_pos row column ≠ EMPTY)
    (hch : follows g.values l
      ((g.nodeAt (g.index_from_pos row column).toNat).first) EMPTY) :
    addPrepends g v row column l := by
  obtain ⟨h1, h2, h3, h4, _⟩ := add_val_spec g v row column hcnt hlen hne hch
  exact ⟨h1, h2, h3, h4⟩

/-- Witness for C3's amended statement on a one-cell grid already holding `[0]`. -/
theorem C3_add_val_prepends_witness :
    (((Grid.newGrid Unit 1 1).add_val () 0 0).count
      = ((Grid.newGrid Unit 1 1).add_val () 0 0).values.length) ∧
    (((Grid.newGrid Unit 1 1).add_val () 0 0).index_from_pos 0 0 ≠ EMPTY) ∧
    addPrepends ((Grid.newGrid Unit 1 1).add_val () 0 0) () 0 0 [0] :=
  ⟨by decide, by decide,
    C3_add_val_prepends ((Grid.newGrid Unit 1 1).add_val () 0 0) () 0 0 [0]
      (by decide) (by decide) (by decide) ⟨-1, rfl, rfl, rfl⟩⟩

/-- C3 as stated is false: after the second `add_val` into the same cell the
newly inserted arena index is 1 (the arena count before the call was 1), but
the cell's `last` stays 0 and the new index becomes `first` — the insert is a
head prepend, not a tail append. -/
theorem C3_counterexample :
    ((Grid.newGrid Unit 1 1).add_val () 0 0).count = 1 ∧
    ((((Grid.newGrid Unit 1 1).add_val () 0 0).add_val () 0 0).nodeAt 0).last ≠ (1 : Int) ∧
    ((((Grid.newGrid Unit 1 1).add_val () 0 0).add_val () 0 0).nodeAt 0).first = (1 : Int)
    := by decide

/-- C10: for every cell position outside the grid, `unlink_val` and `link_val`
both return normally (no panic) and leave the grid completely unchanged. -/
theorem C10_out_of_grid_noop (T : Type) (g : Grid T) (index : Nat) (prev : Int)
    (row column : Int)
    (h : ¬(0 ≤ row ∧ row < (g.rows : Int) ∧ 0 ≤ column ∧ column < (g.columns : Int))) :
    g.unlink_val index prev row column = some g ∧
    g.link_val index row column = some g := by
  have he : g.index_from_pos row column = EMPTY := by
    by_contra hc
    exact h ((index_from_pos_ne_iff g row column).mp hc)
  exact ⟨unlink_val_out g index prev row column he, link_val_out g index row column he⟩

/-- Witness for C10 at a concrete grid and the out-of-grid cell `(-1, 0)`. -/
theorem C10_out_of_grid_noop_witness :
    (¬((0 : Int) ≤ -1 ∧ (-1 : Int) < ((Grid.newGrid Unit 1 1).rows : Int) ∧
       (0 : Int) ≤ 0 ∧ (0 : Int) < ((Grid.newGrid Unit 1 1).columns : Int))) ∧
    ((Grid.newGrid Unit 1 1).unlink_val 0 5 (-1) 0 = some (Grid.newGrid Unit 1 1) ∧
     (Grid.newGrid Unit 1 1).link_val 0 (-1) 0 = some (Grid.newGrid Unit 1 1)) :=
  ⟨by decide, C10_out_of_grid_noop Unit (Grid.newGrid Unit 1 1) 0 5 (-1) 0 (by decide)⟩

/-! ### The boids layer

`f32` is modelled by a linear ordered field with a floor (for the `as i32` /
`as usize` casts); `ℚ` instantiates it for every executable claim. -/

/-- Mirrors `Vector2` of vector2.rs. -/
structure Vec2 (α : Type) where
  x : α
  y : α
  deriving Repr, DecidableEq

instance [Add α] : Add (Vec2 α) := ⟨fun a b => ⟨a.x + b.x, a.y + b.y⟩⟩

instance [Sub α] : Sub (Vec2 α) := ⟨fun a b => ⟨a.x - b.x, a.y - b.y⟩⟩

instance [Mul α] : HMul (Vec2 α) α (Vec2 α) := ⟨fun a k => ⟨a.x * k, a.y * k⟩⟩

instance [Div α] : HDiv (Vec2 α) α (Vec2 α) := ⟨fun a k => ⟨a.x / k, a.y / k⟩⟩

namespace Vec2

/-- Mirrors `Vector2::ZERO`. -/
def ZERO [Zero α] : Vec2 α := ⟨0, 0⟩

/-- Mirrors `Vector2::sqr_magnitude`. -/
def sqr_magnitude [Mul α] [Add α] (v : Vec2 α) : α := v.x * v.x + v.y * v.y

end Vec2

/-- Mirrors `BorderSettings` as matched by simulation.rs (the payload-carrying
revision that simulation.rs's patterns require). -/
inductive BorderSettings (α : Type) where
  | none
  | bounded (turn_force margin : α)
  | boundedVertical (turn_force margin : α)
  | boundedHorizontal (turn_force margin : α)
  | wrapping
  deriving Repr, DecidableEq

/-- Mirrors `BoidSettings` (the fields simulation.rs and boids.rs read). -/
structure BoidSettings (α : Type) where
  protected_range : α
  visible_range : α
  cohesion : α
  separation : α
  alignment : α
  width : Nat
  height : Nat
  border_settings : BorderSettings α
  gravity : α
  noise_force : α
  min_speed : α
  friction_coefficient : α
  squared_friction : Bool
  mouse_force : α
  mouse_range : α
  mouse_position : Vec2 α
  sqr_protected_range : α
  sqr_visible_range : α
  sqr_mouse_range : α

/-- Mirrors `Boid` (group is `u32`). -/
structure Boid (α : Type) where
  position : Vec2 α
  velocity : Vec2 α
  group : Nat
  deriving Repr, DecidableEq

/-- Mirrors `const GRID_MODIFIER: i32 = 2` of boids.rs. -/
def GRID_MODIFIER : Int := 2

/-- Mirrors `const MAX_SAMPLES: i32 = 300` of boids.rs (simulation.rs imports
the same constant from its parent module). -/
def MAX_SAMPLES : Int := 300

/-- Modelled from the spec: `CELLS_IN_RADIUS` is declared in the newer
boids.rs, which is not under src/ (simulation.rs imports it from `super`);
§3 of the spec fixes its default to 2, matching `GRID_MODIFIER` in the old
boids.rs. -/
def CELLS_IN_RADIUS : Int := 2

/-- Rust's `as i32` float-to-int cast: truncation toward zero (saturation and
NaN never arise at the values any claim evaluates). -/
def truncI {α : Type} [LinearOrderedField α] [FloorRing α] (x : α) : Int :=
  if x < 0 then ⌈x⌉ else ⌊x⌋

/-- The grid dimension computed by `populate` and `resize_grid` in boids.rs:
`((GRID_MODIFIER as f32 * extent as f32 / visible.max(protected)) as usize).max(1)`
(an `as usize` cast of a negative value saturates to 0, matching `Int.toNat`). -/
def gridDim {α : Type} [LinearOrderedField α] [FloorRing α]
    (extent : Nat) (s : BoidSettings α) : Nat :=
  max (truncI ((GRID_MODIFIER : α) * (extent : α)
    / max s.visible_range s.protected_range)).toNat 1

/-- Mirrors `populate` of boids.rs with the RNG draws passed in as the list
`positions`; zero velocity, `group := i % group_count`.  Note that the source
passes `(grid_column, grid_row)` to `add_val(val, row, column)` — the
arguments are swapped, and this embedding mirrors that faithfully. -/
def populate {α : Type} [LinearOrderedField α] [FloorRing α]
    (positions : List (Vec2 α)) (group_count : Nat) (s : BoidSettings α) :
    Grid (Boid α) :=
  let grid_columns := gridDim s.width s
  let grid_rows := gridDim s.height s
  (positions.enum).foldl
    (fun grid ip =>
      let grid_column := truncI (ip.2.x / (s.width : α) * (grid.columns : α))
      let grid_row := truncI (ip.2.y / (s.height : α) * (grid.rows : α))
      grid.add_val
        { position := ip.2, velocity := Vec2.ZERO, group := ip.1 % group_count }
        grid_column grid_row)
    (Grid.newGrid (Boid α) grid_columns grid_rows)

/-- Mirrors `resize_grid` of boids.rs (lines 161-186): recompute the grid
dimensions, then re-add every arena value into a fresh grid.  As in
`populate`, the source passes `(grid_column, grid_row)` to
`add_val(val, row, column)` — swapped — and this embedding mirrors that. -/
def resize_grid {α : Type} [LinearOrderedField α] [FloorRing α]
    (grid : Grid (Boid α)) (s : BoidSettings α) : Grid (Boid α) :=
  let grid_columns := gridDim s.width s
  let grid_rows := gridDim s.height s
  grid.values.foldl
    (fun new_grid vn =>
      let grid_column := truncI (vn.val.position.x / (s.width : α) * (new_grid.columns : α))
      let grid_row := truncI (vn.val.position.y / (s.height : α) * (new_grid.rows : α))
      new_grid.add_val vn.val grid_column grid_row)
    (Grid.newGrid (Boid α) grid_columns grid_rows)

/-- Modelled from the spec: `get_grid_position` is declared in the newer
boids.rs, which is not under src/ (simulation.rs imports it from `super`).
§4.1: `cellOf(position) -> (row, col)` maps a position to integer cell
coordinates via linear scaling by world size — row = y / height * rows,
column = x / width * columns, truncated — matching the inline computation in
the old boids.rs. -/
def get_grid_position {α : Type} [LinearOrderedField α] [FloorRing α] {T : Type}
    (position : Vec2 α) (s : BoidSettings α) (grid : Grid T) : Int × Int :=
  (truncI (position.y / (s.height : α) * (grid.rows : α)),
   truncI (position.x / (s.width : α) * (grid.columns : α)))

/-- Written from the spec's words, for the C2 comparison only: the cell that
§4.1's `cellOf` assigns to a position under a given geometry. -/
def cellOfSpec {α : Type} [LinearOrderedField α] [FloorRing α]
    (position : Vec2 α) (width height rows columns : Nat) : Int × Int :=
  (truncI (position.y / (height : α) * (rows : α)),
   truncI (position.x / (width : α) * (columns : α)))

/-! ### Wrapping (claim C8) -/

/-- Mirrors `f32::rem_euclid` for a positive modulus: the representative of
`x` modulo `m` in `[0, m)`. -/
def rem_euclid {α : Type} [LinearOrderedField α] [FloorRing α] (x m : α) : α :=
  x - m * ⌊x / m⌋

/-- Mirrors `wrapping` of simulation.rs (lines 116-136). -/
def wrapping {α : Type} [LinearOrderedField α] [FloorRing α]
    (position : Vec2 α) (s : BoidSettings α) : Vec2 α :=
  let p1 :=
    match s.border_settings with
    | BorderSettings.wrapping | BorderSettings.boundedVertical _ _ =>
      { position with x := rem_euclid position.x (s.width : α) }
    | _ => position
  match s.border_settings with
  | BorderSettings.wrapping | BorderSettings.boundedHorizontal _ _ =>
    { p1 with y := rem_euclid p1.y (s.height : α) }
  | _ => p1

/-- The horizontal axis is configured as wrapping (simulation.rs wraps `x`
for `Wrapping` and `BoundedVertical`). -/
def xWraps {α : Type} (s : BoidSettings α) : Bool :=
  match s.border_settings with
  | BorderSettings.wrapping => true
  | BorderSettings.boundedVertical _ _ => true
  | _ => false

/-- The vertical axis is configured as wrapping (simulation.rs wraps `y` for
`Wrapping` and `BoundedHorizontal`). -/
def yWraps {α : Type} (s : BoidSettings α) : Bool :=
  match s.border_settings with
  | BorderSettings.wrapping => true
  | BorderSettings.boundedHorizontal _ _ => true
  | _ => false

theorem remEuclid_nonneg {α : Type} [LinearOrderedField α] [FloorRing α]
    {x m : α} (hm : 0 < m) : 0 ≤ rem_euclid x m := by
  unfold rem_euclid
  have h1 : ((⌊x / m⌋ : Int) : α) ≤ x / m := Int.floor_le _
  have h2 : m * ((⌊x / m⌋ : Int) : α) ≤ m * (x / m) :=
    mul_le_mul_of_nonneg_left h1 hm.le
  rw [mul_comm m (x / m), div_mul_cancel₀ x (ne_of_gt hm)] at h2
  linarith

theorem remEuclid_lt {α : Type} [LinearOrderedField α] [FloorRing α]
    {x m : α} (hm : 0 < m) : rem_euclid x m < m := by
  unfold rem_euclid
  have h1 : x / m < ((⌊x / m⌋ : Int) : α) + 1 := Int.lt_floor_add_one _
  have h2 : m * (x / m) < m * (((⌊x / m⌋ : Int) : α) + 1) :=
    (mul_lt_mul_left hm).mpr h1
  rw [mul_comm m (x / m), div_mul_cancel₀ x (ne_of_gt hm)] at h2
  nlinarith

theorem remEuclid_noop {α : Type} [LinearOrderedField α] [FloorRing α]
    {x m : α} (hm : 0 < m) (h0 : 0 ≤ x) (h1 : x < m) : rem_euclid x m = x := by
  unfold rem_euclid
  have hfl : ⌊x / m⌋ = 0 := by
    rw [Int.floor_eq_zero_iff]
    constructor
    · exact div_nonneg h0 hm.le
    · rw [div_lt_one hm]
      exact h1
  rw [hfl]
  simp

theorem remEuclid_add_extent {α : Type} [LinearOrderedField α] [FloorRing α]
    {x m : α} (hm : 0 < m) (h0 : 0 ≤ x) (h1 : x < m) :
    rem_euclid (m + x) m = x := by
  unfold rem_euclid
  have hfl0 : ⌊x / m⌋ = 0 := by
    rw [Int.floor_eq_zero_iff]
    constructor
    · exact div_nonneg h0 hm.le
    · rw [div_lt_one hm]
      exact h1
  have hfl : ⌊(m + x) / m⌋ = 1 := by
    have hdiv : (m + x) / m = 1 + x / m := by
      field_simp
    rw [hdiv, show (1 : α) = ((1 : Int) : α) by norm_num, Int.floor_int_add,
      hfl0]
    norm_num
  rw [hfl]
  ring

/-- The C8 property of `wrapping` at one settings/position pair: on each
wrapping axis the coordinate becomes its residue modulo the world extent,
always in `[0, extent)`; a coordinate already in `[0, extent)` is unchanged;
and `extent + x` maps back to `x` for `0 ≤ x < extent`. -/
def wrapSpec (s : BoidSettings ℚ) (p : Vec2 ℚ) : Prop :=
  (xWraps s = true →
    (wrapping p s).x = rem_euclid p.x (s.width : ℚ) ∧
    0 ≤ (wrapping p s).x ∧ (wrapping p s).x < (s.width : ℚ) ∧
    (0 ≤ p.x → p.x < (s.width : ℚ) → (wrapping p s).x = p.x) ∧
    (0 ≤ p.x → p.x < (s.width : ℚ) →
      rem_euclid ((s.width : ℚ) + p.x) (s.width : ℚ) = p.x)) ∧
  (yWraps s = true →
    (wrapping p s).y = rem_euclid p.y (s.height : ℚ) ∧
    0 ≤ (wrapping p s).y ∧ (wrapping p s).y < (s.height : ℚ) ∧
    (0 ≤ p.y → p.y < (s.height : ℚ) → (wrapping p s).y = p.y) ∧
    (0 ≤ p.y → p.y < (s.height : ℚ) →
      rem_euclid ((s.height : ℚ) + p.y) (s.height : ℚ) = p.y))

/-- C8: for every axis configured as wrapping, `wrapping` replaces the
coordinate with its residue modulo the world extent; that residue is always
in `[0, extent)`, the map is the identity on coordinates already in
`[0, extent)`, and it carries `extent + x` back to `x` for `0 ≤ x < extent`. -/
theorem C8_wrapping (s : BoidSettings ℚ) (p : Vec2 ℚ)
    (hw : 0 < s.width) (hh : 0 < s.height) :
    wrapSpec s p := by
  unfold wrapSpec
  have hwq : 0 < (s.width : ℚ) := by exact_mod_cast hw
  have hhq : 0 < (s.height : ℚ) := by exact_mod_cast hh
  constructor
  · intro hx
    have hxeq : (wrapping p s).x = rem_euclid p.x (s.width : ℚ) := by
      unfold wrapping
      cases hb : s.border_settings <;>
        simp [xWraps, hb] at hx ⊢
    refine ⟨hxeq, by rw [hxeq]; exact remEuclid_nonneg hwq,
      by rw [hxeq]; exact remEuclid_lt hwq, ?_, ?_⟩
    · intro h0 h1
      rw [hxeq, remEuclid_noop hwq h0 h1]
    · intro h0 h1
      exact remEuclid_add_extent hwq h0 h1
  · intro hy
    have hyeq : (wrapping p s).y = rem_euclid p.y (s.height : ℚ) := by
      unfold wrapping
      cases hb : s.border_settings <;>
        simp [yWraps, hb] at hy ⊢
    refine ⟨hyeq, by rw [hyeq]; exact remEuclid_nonneg hhq,
      by rw [hyeq]; exact remEuclid_lt hhq, ?_, ?_⟩
    · intro h0 h1
      rw [hyeq, remEuclid_noop hhq h0 h1]
    · intro h0 h1
      exact remEuclid_add_extent hhq h0 h1

/-- A small settings value with fully wrapping borders for the C8 witness. -/
def sW8 : BoidSettings ℚ :=
  { protected_range := 1, visible_range := 2, cohesion := 0, separation := 0,
    alignment := 0, width := 3, height := 2,
    border_settings := BorderSettings.wrapping, gravity := 0, noise_force := 0,
    min_speed := 0, friction_coefficient := 0, squared_friction := false,
    mouse_force := 0, mouse_range := 0, mouse_position := Vec2.ZERO,
    sqr_protected_range := 1, sqr_visible_range := 4, sqr_mouse_range := 0 }

/-- Witness for C8 at a concrete wrapping settings value. -/
theorem C8_wrapping_witness :
    0 < sW8.width ∧ 0 < sW8.height ∧ wrapSpec sW8 ⟨7, -1⟩ :=
  ⟨by decide, by decide, C8_wrapping sW8 ⟨7, -1⟩ (by decide) (by decide)⟩

/-! ### Claim C1: reachability and the chain-integrity invariant -/

/-- A walk from a nonempty self-loop never reaches `EMPTY`. -/
theorem no_follows_selfloop {vals : List (ValueNode T)} {a : Nat}
    (h : nextAt vals a = some (a : Int)) :
    ∀ l, ¬ follows vals l ((a : Int)) EMPTY := by
  intro l
  induction l with
  | nil =>
    intro hf
    rw [follows_nil] at hf
    simp only [EMPTY] at hf
    omega
  | cons b l ih =>
    intro hf
    rw [follows_cons] at hf
    obtain ⟨nx, hnx, hs, hf'⟩ := hf
    have hba : b = a := by exact_mod_cast hs.symm
    subst hba
    rw [h] at hnx
    cases hnx
    exact ih hf'

/-- Claim C1's reachability, formalised exactly as the claim states it: any
sequence of `add_val`, `link_val`, and `unlink_val` calls (the latter with a
correct — in-chain — predecessor) starting from a freshly populated grid. -/
inductive ReachAny : Grid (Boid ℚ) → Prop where
  | populated (positions : List (Vec2 ℚ)) (group_count : Nat) (s : BoidSettings ℚ) :
      ReachAny (populate positions group_count s)
  | add (g : Grid (Boid ℚ)) (v : Boid ℚ) (row column : Int) :
      ReachAny g → ReachAny (g.add_val v row column)
  | unlink (g g' : Grid (Boid ℚ)) (index : Nat) (prev row column : Int) :
      ReachAny g →
      (g.index_from_pos row column ≠ EMPTY →
        ∃ l₁ l₂, follows g.values (l₁ ++ index :: l₂)
          ((g.nodeAt (g.index_from_pos row column).toNat).first) EMPTY ∧
          prev = lastPtr l₁) →
      g.unlink_val index prev row column = some g' → ReachAny g'
  | link (g g' : Grid (Boid ℚ)) (index : Nat) (row column : Int) :
      ReachAny g → g.link_val index row column = some g' → ReachAny g'

/-- The amended reachability: as `ReachAny`, but `link_val` is only called on
an arena index that is not currently resident in any cell's chain (the
documented contract of `link_val`). -/
inductive ReachValid : Grid (Boid ℚ) → Prop where
  | populated (positions : List (Vec2 ℚ)) (group_count : Nat) (s : BoidSettings ℚ) :
      ReachValid (populate positions group_count s)
  | add (g : Grid (Boid ℚ)) (v : Boid ℚ) (row column : Int) :
      ReachValid g → ReachValid (g.add_val v row column)
  | unlink (g g' : Grid (Boid ℚ)) (index : Nat) (prev row column : Int) :
      ReachValid g →
      (g.index_from_pos row column ≠ EMPTY →
        ∃ l₁ l₂, follows g.values (l₁ ++ index :: l₂)
          ((g.nodeAt (g.index_from_pos row column).toNat).first) EMPTY ∧
          prev = lastPtr l₁) →
      g.unlink_val index prev row column = some g' → ReachValid g'
  | link (g g' : Grid (Boid ℚ)) (index : Nat) (row column : Int) :
      ReachValid g →
      (g.index_from_pos row column ≠ EMPTY →
        index < g.values.length ∧
        (∀ c, c < g.grid.length → ∀ l, follows g.values l
          ((g.nodeAt c).first) EMPTY → index ∉ l)) →
      g.link_val index row column = some g' → ReachValid g'

theorem WF_foldl {T β : Type} (f : Grid T → β → Grid T)
    (hf : ∀ g b, WF g → WF (f g b)) (l : List β) (g : Grid T) (h : WF g) :
    WF (l.foldl f g) := by
  induction l generalizing g with
  | nil => exact h
  | cons b l ih => exact ih (f g b) (hf g b h)

theorem WF_populate (positions : List (Vec2 ℚ)) (group_count : Nat)
    (s : BoidSettings ℚ) : WF (populate positions group_count s) := by
  unfold populate
  exact WF_foldl _ (fun g b hg => WF_add _ _ _ hg) _ _ (WF_newGrid _ _ _)

/-- C1 (amended): every grid reachable from a freshly populated grid by
`add_val` calls, `unlink_val` calls whose predecessor is the in-chain
predecessor in the named cell, and `link_val` calls on indices not resident
in any chain, satisfies the full chain-integrity invariant `WF`: each cell's
count equals its chain length, chains are acyclic `EMPTY`-terminated with
correct `first`/`last`, and every arena index is in at most one chain. -/
theorem C1_chain_integrity (g : Grid (Boid ℚ)) (h : ReachValid g) : WF g := by
  induction h with
  | populated positions group_count s => exact WF_populate positions group_count s
  | add g v row column _ ih => exact WF_add v row column ih
  | unlink g g' index prev row column _ hcp heval ih =>
    obtain ⟨g'', heval2, hwf⟩ := WF_unlink ih hcp
    cases Option.some.inj (heval.symm.trans heval2)
    exact hwf
  | link g g' index row column _ hok heval ih =>
    obtain ⟨g'', heval2, hwf⟩ := WF_link ih hok
    cases Option.some.inj (heval.symm.trans heval2)
    exact hwf

/-- The settings used by the C1 witness and counterexample (1×1 world, so the
derived grid is a single cell). -/
def sC1 : BoidSettings ℚ :=
  { protected_range := 1, visible_range := 2, cohesion := 0, separation := 0,
    alignment := 0, width := 1, height := 1,
    border_settings := BorderSettings.none, gravity := 0, noise_force := 0,
    min_speed := 0, friction_coefficient := 0, squared_friction := false,
    mouse_force := 0, mouse_range := 0, mouse_position := Vec2.ZERO,
    sqr_protected_range := 1, sqr_visible_range := 4, sqr_mouse_range := 0 }

/-- A freshly populated one-boid, one-cell grid. -/
def gPop : Grid (Boid ℚ) := populate [⟨1/2, 1/2⟩] 1 sC1

/-- Witness for C1's amended statement: the freshly populated grid is
reachable and satisfies the invariant. -/
theorem C1_chain_integrity_witness : ReachValid gPop ∧ WF gPop :=
  ⟨ReachValid.populated [⟨1/2, 1/2⟩] 1 sC1,
   C1_chain_integrity gPop (ReachValid.populated [⟨1/2, 1/2⟩] 1 sC1)⟩

/-- The boid stored in `gPop`. -/
def bBad : Boid ℚ := { position := ⟨1/2, 1/2⟩, velocity := Vec2.ZERO, group := 0 }

/-- The grid obtained from `gPop` by re-linking its only (already linked)
index 0 into its own cell: slot 0 now points at itself and the cell's count
is 2. -/
def gBad : Grid (Boid ℚ) :=
  { values := [⟨0, bBad⟩], grid := [⟨0, 0, 2⟩], count := 1, rows := 1, columns := 1 }

/-- Evaluation of the freshly populated grid: one arena slot, linked as the
single-element chain of the single cell. -/
theorem gPop_eq :
    gPop = { values := [⟨EMPTY, bBad⟩], grid := [⟨0, 0, 1⟩],
             count := 1, rows := 1, columns := 1 } := by
  unfold gPop populate
  have hdim : ∀ extent : Nat, extent = 1 → gridDim extent sC1 = 1 := by
    intro extent h
    subst h
    norm_num [gridDim, sC1, truncI, GRID_MODIFIER]
  rw [hdim sC1.width rfl, hdim sC1.height rfl]
  simp only [List.enum, List.enumFrom, List.foldl]
  norm_num [Grid.add_val, Grid.index_from_pos, Grid.newGrid, Grid.nodeAt,
    sC1, truncI, bBad, Vec2.ZERO, emptyNode, EMPTY]

/-- C1 as stated is false: `gBad` is reachable from a freshly populated grid
by a single `link_val` call (a sequence the claim admits), yet its one cell
stores count 2 while its chain is a self-loop that never terminates at
`EMPTY` — so no cell chain with the stored count exists and `WF` fails. -/
theorem C1_counterexample :
    gPop.link_val 0 0 0 = some gBad ∧ ReachAny gBad ∧ ¬ WF gBad := by
  have heval : gPop.link_val 0 0 0 = some gBad := by
    rw [gPop_eq]
    norm_num [Grid.link_val, Grid.index_from_pos, Grid.nodeAt, gBad, EMPTY,
      emptyNode]
  refine ⟨heval,
    ReachAny.link gPop gBad 0 0 0 (ReachAny.populated [⟨1/2, 1/2⟩] 1 sC1) heval, ?_⟩
  rintro ⟨hcnt, hlen, ch, hcell, hdis⟩
  obtain ⟨hf, hcnt0, hlast0⟩ := hcell 0 (by norm_num [gBad])
  have hfirst : (gBad.nodeAt 0).first = ((0 : Nat) : Int) := rfl
  rw [hfirst] at hf
  have hself : nextAt gBad.values 0 = some (((0 : Nat) : Int)) := rfl
  exact no_follows_selfloop hself (ch 0) hf

/-! ### Claim C2: rebuild correctness -/

/-- The settings used by the C2 failing input: width 30, height 20, largest
range 20, so `resize_grid` builds a grid with 3 columns and 2 rows. -/
def sC2 : BoidSettings ℚ :=
  { protected_range := 2, visible_range := 20, cohesion := 0, separation := 0,
    alignment := 0, width := 30, height := 20,
    border_settings := BorderSettings.none, gravity := 0, noise_force := 0,
    min_speed := 0, friction_coefficient := 0, squared_friction := false,
    mouse_force := 0, mouse_range := 0, mouse_position := Vec2.ZERO,
    sqr_protected_range := 4, sqr_visible_range := 400, sqr_mouse_range := 0 }

/-- One entity at (25, 5), rebuilt under `sC2`. -/
def gC2 : Grid (Boid ℚ) := resize_grid (populate [⟨25, 5⟩] 1 sC2) sC2

/-- The boid stored in `gC2`. -/
def bC2 : Boid ℚ := { position := ⟨25, 5⟩, velocity := Vec2.ZERO, group := 0 }

/-- Evaluation of the rebuilt grid: the entity stays in the arena but is
linked into no cell (its transposed target (2, 0) is out of the 2×3 grid). -/
theorem gC2_eq :
    gC2 = { values := [⟨EMPTY, bC2⟩], grid := List.replicate 6 emptyNode,
            count := 1, rows := 2, columns := 3 } := by
  have hdimw : gridDim sC2.width sC2 = 3 := by
    norm_num [gridDim, sC2, truncI, GRID_MODIFIER]
    rfl
  have hdimh : gridDim sC2.height sC2 = 2 := by
    norm_num [gridDim, sC2, truncI, GRID_MODIFIER]
    rfl
  unfold gC2 resize_grid populate
  rw [hdimw, hdimh]
  simp only [List.enum, List.enumFrom, List.foldl]
  norm_num [Grid.add_val, Grid.index_from_pos, Grid.newGrid, Grid.nodeAt,
    sC2, truncI, bC2, Vec2.ZERO, emptyNode, EMPTY]

/-- C2 fails on the code: under the new geometry (2 rows × 3 columns) the
spec's `cellOf((25,5))` is the in-grid cell (row 0, column 2), but after the
rebuild the entity — still present in the arena — is linked into no cell at
all, because `resize_grid` passes `(grid_column, grid_row)` to
`add_val(val, row, column)` and the transposed coordinates (2, 0) fail the
row bound.  (simulation.rs passes `(row, column)` in the correct order, so
the spec's reading is the intended one and `resize_grid`'s swap is a slip.) -/
theorem C2_resize_misplaces :
    cellOfSpec (⟨25, 5⟩ : Vec2 ℚ) 30 20 gC2.rows gC2.columns = (0, 2) ∧
    gC2.rows = 2 ∧ gC2.columns = 3 ∧
    (0 : Int) < gC2.rows ∧ (2 : Int) < gC2.columns ∧
    gC2.values.length = 1 ∧
    (gC2.values.map (fun vn => vn.val.position)) = [⟨25, 5⟩] ∧
    (∀ c, c < gC2.grid.length → (gC2.nodeAt c).count = 0 ∧
      (gC2.nodeAt c).first = EMPTY) := by
  rw [gC2_eq]
  refine ⟨?_, rfl, rfl, by norm_num, by norm_num, rfl, rfl, ?_⟩
  · norm_num [cellOfSpec, truncI]
  · intro c hc
    simp only [List.length_replicate] at hc
    constructor <;>
      · simp only [Grid.nodeAt]
        rw [getD_replicate hc]
        rfl

/-! ### simulation.rs: forces, the sampling walk, and the per-boid update

`f32::sqrt` is passed as an explicit function parameter and the two
`fastrand::f32()` draws of `rand_diffuse` as explicit values `r1`, `r2`. -/

section Simulation

variable {α : Type} [LinearOrderedField α] [FloorRing α]

/-- Mirrors `f32::signum` (which returns 1.0 on +0.0). -/
def signum (x : α) : α := if x < 0 then -1 else 1

/-- Mirrors `drag` of simulation.rs. -/
def drag (velocity : Vec2 α) (s : BoidSettings α) : Vec2 α :=
  let k := s.friction_coefficient
  if s.squared_friction then
    { x := signum velocity.x * velocity.x * velocity.x * k
      y := signum velocity.y * velocity.y * velocity.y * k }
  else
    velocity * k

/-- Mirrors `rand_diffuse` of simulation.rs; `r1`, `r2` stand for the two
`fastrand::f32()` draws. -/
def rand_diffuse (sqrt : α → α) (s : BoidSettings α) (delta r1 r2 : α) : Vec2 α :=
  if 0 < delta ∧ 0 < s.noise_force then
    let diffuse := sqrt delta
    let force := s.noise_force
    { x := force * (r1 - 1/2) / diffuse, y := force * (r2 - 1/2) / diffuse }
  else
    Vec2.ZERO

/-- Mirrors `mouse_force` of simulation.rs. -/
def mouse_force (sqrt : α → α) (position : Vec2 α) (s : BoidSettings α) : Vec2 α :=
  if s.mouse_force = 0 then Vec2.ZERO
  else
    let diff := s.mouse_position - position
    let sqr_diff := diff.sqr_magnitude
    if sqr_diff < s.sqr_mouse_range then
      if s.mouse_force < 0 then
        diff * ((1 - sqr_diff / s.sqr_mouse_range) / sqrt sqr_diff * s.mouse_force)
      else if 0 < s.mouse_force then
        diff * ((1 / s.mouse_range) * s.mouse_force)
      else diff
    else Vec2.ZERO

/-- Mirrors `border_force` of simulation.rs. -/
def border_force (position velocity : Vec2 α) (s : BoidSettings α) : Vec2 α :=
  let accel : Vec2 α := Vec2.ZERO
  let accel1 :=
    match s.border_settings with
    | BorderSettings.bounded tf margin | BorderSettings.boundedHorizontal tf margin =>
      if position.x < margin then
        { x := accel.x + tf, y := accel.y + signum velocity.y * tf * (1/100) }
      else if position.x > (s.width : α) - margin then
        { x := accel.x - tf, y := accel.y + signum velocity.y * tf * (1/100) }
      else accel
    | _ => accel
  match s.border_settings with
  | BorderSettings.bounded tf margin | BorderSettings.boundedVertical tf margin =>
    if position.y < margin then
      { x := accel1.x + signum velocity.x * tf * (1/100), y := accel1.y + tf }
    else if position.y > (s.height : α) - margin then
      { x := accel1.x + signum velocity.x * tf * (1/100), y := accel1.y - tf }
    else accel1
  | _ => accel1

/-- Mirrors `Vector2::magnitude` with the square root as a parameter. -/
def magnitude (sqrt : α → α) (v : Vec2 α) : α := sqrt (v.x * v.x + v.y * v.y)

/-- The clipping step of `update_boid` (simulation.rs lines 291-296): when
`speed = velocity.magnitude()` is below `min_speed` and nonzero, the velocity
is scaled by `min_speed / speed`. -/
def clipVelocity (sqrt : α → α) (v : Vec2 α) (min_speed : α) : Vec2 α :=
  if magnitude sqrt v < min_speed ∧ magnitude sqrt v ≠ 0 then
    v * (min_speed / magnitude sqrt v)
  else v

/-- Mirrors `LOCAL_GRID_WIDTH = CELLS_IN_RADIUS * 2 + 1`. -/
def LOCAL_GRID_WIDTH : Nat := CELLS_IN_RADIUS.toNat * 2 + 1

/-- Mirrors `LOCAL_GRID_SIZE = LOCAL_GRID_WIDTH * LOCAL_GRID_WIDTH`. -/
def LOCAL_GRID_SIZE : Nat := LOCAL_GRID_WIDTH * LOCAL_GRID_WIDTH

/-- The cell index stored into `indices[i]` by `boid_rules`
(`i = c_offset + r_offset * LOCAL_GRID_WIDTH`, so `r = i / 5`, `c = i % 5`). -/
def cellIndexAt {T : Type} (g : Grid T) (top_border left_border : Int) (i : Nat) : Int :=
  g.index_from_pos (top_border + ((i / LOCAL_GRID_WIDTH : Nat) : Int))
    (left_border + ((i % LOCAL_GRID_WIDTH : Nat) : Int))

/-- The count contribution of window slot `i` to `bins` (0 outside the grid). -/
def cntAt {T : Type} (g : Grid T) (top_border left_border : Int) (i : Nat) : α :=
  match g.get_grid_node (top_border + ((i / LOCAL_GRID_WIDTH : Nat) : Int))
      (left_border + ((i % LOCAL_GRID_WIDTH : Nat) : Int)) with
  | some node => (node.count : α)
  | none => 0

/-- The cumulative histogram `bins[i]` of `boid_rules`
(`bins[i] = cnt(i) + bins[i-1]`, i.e. the sum of the window counts up to
slot `i`). -/
def binsAt {T : Type} (g : Grid T) (top_border left_border : Int) (i : Nat) : α :=
  ((List.range (i + 1)).map (fun j => cntAt g top_border left_border j)).sum

/-- The pointer `iter_from_index(indices[i])` starts from. -/
def cellStart {T : Type} (g : Grid T) (top_border left_border : Int) (i : Nat) : Int :=
  let ci := cellIndexAt g top_border left_border i
  if ci < 0 then EMPTY else (g.nodeAt ci.toNat).first

/-- The mutable state of the `boid_rules` scan, plus a ghost counter
`visited` of the entities on which the loop body does work. -/
structure RulesState (α : Type) where
  avg : Vec2 α
  align : Vec2 α
  vis_count : Nat
  sep : Vec2 α
  prot_count : Nat
  prev_found : Bool
  prev_index : Int
  acc : α
  visited : Nat

/-- The initial state of the scan (`prev_index` starts as `EMPTY`, set by the
caller `update_boid`). -/
def initRules : RulesState α :=
  { avg := Vec2.ZERO, align := Vec2.ZERO, vis_count := 0, sep := Vec2.ZERO,
    prot_count := 0, prev_found := false, prev_index := EMPTY, acc := 0,
    visited := 0 }

/-- The body of `boid_rules`'s distance classification (simulation.rs lines
225-236): separation inside the protected range, else cohesion/alignment
inside the visible range for the same group. -/
def classify (s : BoidSettings α) (position : Vec2 α) (group : Nat)
    (other_boid : Boid α) (st : RulesState α) : RulesState α :=
  let diff := other_boid.position - position
  let distance := diff.sqr_magnitude
  if distance < s.sqr_protected_range then
    { st with sep := st.sep - diff, prot_count := st.prot_count + 1 }
  else if distance < s.sqr_visible_range ∧ other_boid.group = group then
    { st with avg := st.avg + diff, align := st.align + other_boid.velocity,
              vis_count := st.vis_count + 1 }
  else st

/-- One cell's inner loop of `boid_rules` (simulation.rs lines 206-238):
walks the chain from pointer `p`, with `local_prev` the per-cell predecessor
candidate.  `none` models nontermination on a corrupted (cyclic) chain or a
panic of the iterator / `get_val(..).unwrap()`. -/
def cellLoop (g : Grid (Boid α)) (s : BoidSettings α) (position : Vec2 α)
    (group index : Nat) (inc binVal : α) (isCenter : Bool) :
    Nat → Int → Int → RulesState α → Option (RulesState α)
  | 0, p, _, st => if p = EMPTY then some st else none
  | fuel + 1, p, local_prev, st =>
    if p = EMPTY then some st
    else if p < 0 then none
    else
      match g.values[p.toNat]? with
      | none => none
      | some node =>
        if st.acc ≥ binVal ∧ (¬isCenter ∨ st.prev_found) then some st
        else if p.toNat = index then
          cellLoop g s position group index inc binVal isCenter fuel
            node.next_index local_prev
            { st with prev_found := true, acc := st.acc + inc,
                      prev_index := local_prev, visited := st.visited + 1 }
        else
          if st.acc ≥ binVal then
            cellLoop g s position group index inc binVal isCenter fuel
              node.next_index ((p.toNat : Nat) : Int)
              { st with visited := st.visited + 1 }
          else
            match g.get_val p.toNat with
            | none => none
            | some other_boid =>
              let st1 := classify s position group other_boid st
              cellLoop g s position group index inc binVal isCenter fuel
                node.next_index ((p.toNat : Nat) : Int)
                { st1 with acc := st1.acc + inc, visited := st1.visited + 1 }

/-- The outer loop of `boid_rules` over the window's bins in order. -/
def binLoop (g : Grid (Boid α)) (s : BoidSettings α) (position : Vec2 α)
    (group index : Nat) (inc : α) (top_border left_border : Int) (fuel : Nat) :
    List Nat → RulesState α → Option (RulesState α)
  | [], st => some st
  | b :: rest, st =>
    match cellLoop g s position group index inc
        (binsAt g top_border left_border b) (decide (b = LOCAL_GRID_SIZE / 2)) fuel
        (cellStart g top_border left_border b) EMPTY st with
    | none => none
    | some st1 => binLoop g s position group index inc top_border left_border fuel rest st1

/-- The full scan of `boid_rules` (window set-up, increment, and the walk). -/
def boidRulesWalk (index : Nat) (g : Grid (Boid α)) (s : BoidSettings α) :
    Option (RulesState α) :=
  match g.values[index]? with
  | none => none
  | some vn =>
    let position := vn.val.position
    let group := vn.val.group
    let rc := get_grid_position position s g
    let left_border := rc.2 - CELLS_IN_RADIUS
    let top_border := rc.1 - CELLS_IN_RADIUS
    let inc := max (binsAt g top_border left_border (LOCAL_GRID_SIZE - 1)
      / (MAX_SAMPLES : α)) 1
    binLoop g s position group index inc top_border left_border
      (g.values.length + 1) (List.range LOCAL_GRID_SIZE) initRules

/-- Mirrors `boid_rules` of simulation.rs: the flocking acceleration and the
subject's predecessor pointer; `none` models a panic or a corrupted chain. -/
def boid_rules (index : Nat) (g : Grid (Boid α)) (s : BoidSettings α) :
    Option (Vec2 α × Int) :=
  (boidRulesWalk index g s).map (fun st =>
    let sep : Vec2 α :=
      if 0 < st.prot_count then st.sep / (st.prot_count : α) else st.sep
    let avg : Vec2 α :=
      if 0 < st.vis_count then st.avg / (st.vis_count : α) else st.avg
    let align : Vec2 α :=
      if 0 < st.vis_count then st.align / (st.vis_count : α) else st.align
    (avg * s.cohesion + align * s.alignment + sep * s.separation, st.prev_index))

/-- The write of the updated velocity and position into the subject's arena
slot (simulation.rs lines 286-303; the `next_index` link is untouched). -/
def writeBack (g : Grid (Boid α)) (index : Nat) (vn : ValueNode (Boid α))
    (velocity2 new_position : Vec2 α) : Grid (Boid α) :=
  let newNode : ValueNode (Boid α) :=
    { next_index := vn.next_index
      val := { vn.val with velocity := velocity2, position := new_position } }
  { g with values := g.values.set index newNode }

/-- Mirrors `update_boid` of simulation.rs (lines 257-312). -/
def update_boid (sqrt : α → α) (r1 r2 : α) (index : Nat) (g : Grid (Boid α))
    (s : BoidSettings α) (delta : α) : Option (Grid (Boid α)) :=
  match g.values[index]? with
  | none => none
  | some vn =>
    let position := vn.val.position
    let velocity := vn.val.velocity
    match boid_rules index g s with
    | none => none
    | some ap =>
      let accel1 : Vec2 α := { x := ap.1.x, y := ap.1.y + s.gravity }
      let accel2 := accel1 + rand_diffuse sqrt s delta r1 r2
      let accel3 := accel2 - drag velocity s
      let accel4 := accel3 + mouse_force sqrt position s
      let accel := accel4 + border_force position velocity s
      let velocity2 := clipVelocity sqrt (velocity + accel * delta) s.min_speed
      let new_position := wrapping (position + velocity2 * delta) s
      let g1 : Grid (Boid α) := writeBack g index vn velocity2 new_position
      let rc := get_grid_position position s g1
      let nrc := get_grid_position new_position s g1
      match g1.unlink_val index ap.2 rc.1 rc.2 with
      | none => none
      | some g2 => g2.link_val index nrc.1 nrc.2

end Simulation

/-! ### Claim C6: the speed floor of the integrator -/

section SpeedFloor

variable {α : Type} [LinearOrderedField α] [FloorRing α]

theorem hmulX (v : Vec2 α) (k : α) : (v * k).x = v.x * k := rfl

theorem hmulY (v : Vec2 α) (k : α) : (v * k).y = v.y * k := rfl

theorem zero_hmul (k : α) : (Vec2.ZERO : Vec2 α) * k = Vec2.ZERO := by
  show (⟨(0 : α) * k, (0 : α) * k⟩ : Vec2 α) = ⟨0, 0⟩
  simp

theorem add_zero_vec (v : Vec2 α) : v + (Vec2.ZERO : Vec2 α) = v := by
  cases v with
  | mk x y =>
    show (⟨x + 0, y + 0⟩ : Vec2 α) = ⟨x, y⟩
    simp

/-- Two nonnegative numbers with equal squares are equal. -/
theorem nonneg_mul_self_inj {a b : α} (ha : 0 ≤ a) (hb : 0 ≤ b)
    (h : a * a = b * b) : a = b := by
  have hf : (a - b) * (a + b) = 0 := by linear_combination h
  rcases mul_eq_zero.mp hf with h1 | h1
  · linarith
  · linarith

/-- Exactness axioms for the square-root parameter (an idealisation of
`f32::sqrt`); `Real.sqrt` satisfies them. -/
def sqrtSpec (sq : α → α) : Prop :=
  ∀ x, 0 ≤ x → sq x * sq x = x ∧ 0 ≤ sq x

theorem vec2_ext {a b : Vec2 α} (hx : a.x = b.x) (hy : a.y = b.y) : a = b := by
  cases a
  cases b
  simp_all

theorem sqrMag_nonneg (v : Vec2 α) : 0 ≤ v.x * v.x + v.y * v.y :=
  add_nonneg (mul_self_nonneg _) (mul_self_nonneg _)

theorem magnitude_nonneg {sq : α → α} (hs : sqrtSpec sq) (v : Vec2 α) :
    0 ≤ magnitude sq v := (hs _ (sqrMag_nonneg v)).2

theorem magnitude_mul_self {sq : α → α} (hs : sqrtSpec sq) (v : Vec2 α) :
    magnitude sq v * magnitude sq v = v.x * v.x + v.y * v.y :=
  (hs _ (sqrMag_nonneg v)).1

theorem magnitude_eq_zero {sq : α → α} (hs : sqrtSpec sq) {v : Vec2 α}
    (h : magnitude sq v = 0) : v = Vec2.ZERO := by
  have h2 := magnitude_mul_self hs v
  rw [h, mul_zero] at h2
  have hx : v.x = 0 := by nlinarith [mul_self_nonneg v.x, mul_self_nonneg v.y]
  have hy : v.y = 0 := by nlinarith [mul_self_nonneg v.x, mul_self_nonneg v.y]
  exact vec2_ext hx hy

theorem magnitude_smul {sq : α → α} (hs : sqrtSpec sq) (v : Vec2 α)
    {c : α} (hc : 0 ≤ c) : magnitude sq (v * c) = c * magnitude sq v := by
  have hmm := magnitude_mul_self hs v
  have h1 : magnitude sq (v * c) * magnitude sq (v * c)
      = (c * magnitude sq v) * (c * magnitude sq v) := by
    rw [magnitude_mul_self hs, hmulX, hmulY]
    linear_combination (-(c * c)) * hmm
  exact nonneg_mul_self_inj (magnitude_nonneg hs _)
    (mul_nonneg hc (magnitude_nonneg hs v)) h1

/-- When the speed is nonzero and below the floor, clipping rescales it to
exactly the floor. -/
theorem clip_of_lt {sq : α → α} (hs : sqrtSpec sq) {v : Vec2 α} {m : α}
    (h0 : magnitude sq v ≠ 0) (h1 : magnitude sq v < m) :
    magnitude sq (clipVelocity sq v m) = m := by
  have hpos : 0 < magnitude sq v :=
    lt_of_le_of_ne (magnitude_nonneg hs v) (Ne.symm h0)
  have hmpos : 0 < m := lt_trans hpos h1
  unfold clipVelocity
  rw [if_pos ⟨h1, h0⟩, magnitude_smul hs v (le_of_lt (div_pos hmpos hpos))]
  exact div_mul_cancel₀ m (ne_of_gt hpos)

/-- Any nonzero clipped velocity has speed at least the floor. -/
theorem clip_floor {sq : α → α} (hs : sqrtSpec sq) {v : Vec2 α} {m : α}
    (hne : clipVelocity sq v m ≠ Vec2.ZERO) :
    m ≤ magnitude sq (clipVelocity sq v m) := by
  by_cases hcond : magnitude sq v < m ∧ magnitude sq v ≠ 0
  · rw [clip_of_lt hs hcond.2 hcond.1]
  · have heq : clipVelocity sq v m = v := by
      unfold clipVelocity
      rw [if_neg hcond]
    rw [heq] at hne ⊢
    push_neg at hcond
    rcases lt_or_le (magnitude sq v) m with hlt | hle
    · exact absurd (magnitude_eq_zero hs (hcond hlt)) hne
    · exact hle

/-- A zero velocity is never rescaled. -/
theorem clip_zero (sq : α → α) (m : α) :
    clipVelocity sq (Vec2.ZERO : Vec2 α) m = Vec2.ZERO := by
  unfold clipVelocity
  split
  · exact zero_hmul _
  · rfl

/-- `wrapping` is the identity on positions inside the world rectangle. -/
theorem wrapping_noop (s : BoidSettings α) (p : Vec2 α)
    (hw : 0 < s.width) (hh : 0 < s.height)
    (hx0 : 0 ≤ p.x) (hx1 : p.x < (s.width : α))
    (hy0 : 0 ≤ p.y) (hy1 : p.y < (s.height : α)) : wrapping p s = p := by
  have hwq : (0 : α) < (s.width : α) := by exact_mod_cast hw
  have hhq : (0 : α) < (s.height : α) := by exact_mod_cast hh
  unfold wrapping
  cases hb : s.border_settings <;> dsimp only <;>
    simp [remEuclid_noop hwq hx0 hx1, remEuclid_noop hhq hy0 hy1]

/-- The C6 property at one input: with `v₁ = velocity + accel·Δt` the clipped
velocity used by `update_boid` (i) has speed exactly `min_speed` when `v₁`'s
speed was nonzero and below the floor, (ii) never ends up nonzero with speed
below the floor, (iii) is never rescaled when `v₁` is exactly zero, and
(iv) for an at-rest entity with zero net force, velocity stays zero and the
position step `wrapping (p + v·Δt)` returns the position unchanged. -/
def speedFloorSpec (sq : α → α) (s : BoidSettings α) (v accel p : Vec2 α)
    (delta : α) : Prop :=
  (magnitude sq (v + accel * delta) ≠ 0 →
    magnitude sq (v + accel * delta) < s.min_speed →
    magnitude sq (clipVelocity sq (v + accel * delta) s.min_speed) = s.min_speed) ∧
  (clipVelocity sq (v + accel * delta) s.min_speed ≠ Vec2.ZERO →
    s.min_speed ≤ magnitude sq (clipVelocity sq (v + accel * delta) s.min_speed)) ∧
  (v + accel * delta = Vec2.ZERO →
    clipVelocity sq (v + accel * delta) s.min_speed = Vec2.ZERO) ∧
  (accel = Vec2.ZERO → v = Vec2.ZERO →
    0 ≤ p.x → p.x < (s.width : α) → 0 ≤ p.y → p.y < (s.height : α) →
    clipVelocity sq (v + accel * delta) s.min_speed = Vec2.ZERO ∧
    wrapping (p + clipVelocity sq (v + accel * delta) s.min_speed * delta) s = p)

/-- C6 — Speed floor: after the velocity update of `update_boid`, a velocity
with nonzero speed below `min_speed` is rescaled to exactly `min_speed`; every
nonzero clipped velocity has speed at least `min_speed`; an exactly-zero
velocity is never rescaled; and an at-rest entity inside the world with all
forces zero keeps its velocity and position unchanged. -/
theorem C6_speed_floor (sq : α → α) (s : BoidSettings α)
    (v accel p : Vec2 α) (delta : α)
    (hs : sqrtSpec sq) (hm : 0 < s.min_speed)
    (hw : 0 < s.width) (hh : 0 < s.height) :
    speedFloorSpec sq s v accel p delta := by
  unfold speedFloorSpec
  refine ⟨?_, ?_, ?_, ?_⟩
  · intro h0 h1
    exact clip_of_lt hs h0 h1
  · intro hne
    exact clip_floor hs hne
  · intro hz
    rw [hz]
    exact clip_zero _ _
  · intro ha hv hx0 hx1 hy0 hy1
    have hzero : v + accel * delta = Vec2.ZERO := by
      rw [ha, hv, zero_hmul, add_zero_vec]
    rw [hzero, clip_zero, zero_hmul, add_zero_vec]
    exact ⟨rfl, wrapping_noop s p hw hh hx0 hx1 hy0 hy1⟩

end SpeedFloor

/-- Concrete settings over `ℝ` for the C6 witness. -/
def s6 : BoidSettings ℝ :=
  { protected_range := 1, visible_range := 2, cohesion := 0, separation := 0,
    alignment := 0, width := 4, height := 3,
    border_settings := BorderSettings.wrapping, gravity := 0, noise_force := 0,
    min_speed := 2, friction_coefficient := 0, squared_friction := false,
    mouse_force := 0, mouse_range := 0, mouse_position := Vec2.ZERO,
    sqr_protected_range := 1, sqr_visible_range := 4, sqr_mouse_range := 0 }

/-- Witness for C6 at `α = ℝ` with the genuine `Real.sqrt`. -/
theorem C6_speed_floor_witness :
    sqrtSpec Real.sqrt ∧ 0 < s6.min_speed ∧ 0 < s6.width ∧ 0 < s6.height ∧
    speedFloorSpec Real.sqrt s6 ⟨1, 0⟩ ⟨0, 0⟩ ⟨1, 1⟩ 1 := by
  have hs : sqrtSpec Real.sqrt :=
    fun x hx => ⟨Real.mul_self_sqrt hx, Real.sqrt_nonneg x⟩
  refine ⟨hs, ?_, ?_, ?_,
    C6_speed_floor Real.sqrt s6 ⟨1, 0⟩ ⟨0, 0⟩ ⟨1, 1⟩ 1 hs ?_ ?_ ?_⟩ <;>
    norm_num [s6]

/-! ### Claim C7: zero-neighbor stability of boid_rules -/

section ZeroNeighbor

variable {α : Type} [LinearOrderedField α] [FloorRing α]

/-- No other arena entity lies within the subject's protected or visible
range of the given position (distances compared squared, as in the code). -/
def isolated (g : Grid (Boid α)) (s : BoidSettings α) (position : Vec2 α)
    (index : Nat) : Prop :=
  ∀ j, j ≠ index → ∀ bj, g.get_val j = some bj →
    s.sqr_protected_range ≤ (bj.position - position).sqr_magnitude ∧
    s.sqr_visible_range ≤ (bj.position - position).sqr_magnitude

/-- All flocking accumulators of the scan state are zero. -/
def zeroAccums (st : RulesState α) : Prop :=
  st.avg = Vec2.ZERO ∧ st.align = Vec2.ZERO ∧ st.sep = Vec2.ZERO ∧
  st.vis_count = 0 ∧ st.prot_count = 0

theorem cellLoop_zero {g : Grid (Boid α)} {s : BoidSettings α}
    {position : Vec2 α} {group index : Nat} {inc binVal : α} {isCenter : Bool}
    (hiso : isolated g s position index) :
    ∀ fuel p lp st st',
      cellLoop g s position group index inc binVal isCenter fuel p lp st
        = some st' →
      zeroAccums st → zeroAccums st' := by
  intro fuel
  induction fuel with
  | zero =>
    intro p lp st st' h hz
    simp only [cellLoop] at h
    split at h
    · cases h
      exact hz
    · cases h
  | succ fuel ih =>
    intro p lp st st' h hz
    simp only [cellLoop] at h
    split at h
    · cases h
      exact hz
    split at h
    · cases h
    split at h
    · cases h
    next node hnode =>
      split at h
      · cases h
        exact hz
      next hbreak =>
        split at h
        · exact ih _ _ _ _ h hz
        next hne =>
          split at h
          · exact ih _ _ _ _ h hz
          next hacc =>
            split at h
            · cases h
            next other_boid hget =>
              have hd := hiso p.toNat hne other_boid hget
              have hcl : classify s position group other_boid st = st := by
                unfold classify
                dsimp only
                rw [if_neg (not_lt.mpr hd.1),
                  if_neg (fun hc => absurd hc.1 (not_lt.mpr hd.2))]
              rw [hcl] at h
              exact ih _ _ _ _ h hz

theorem binLoop_zero {g : Grid (Boid α)} {s : BoidSettings α}
    {position : Vec2 α} {group index : Nat} {inc : α} {top left : Int}
    (hiso : isolated g s position index) :
    ∀ bs fuel st st',
      binLoop g s position group index inc top left fuel bs st = some st' →
      zeroAccums st → zeroAccums st' := by
  intro bs
  induction bs with
  | nil =>
    intro fuel st st' h hz
    simp only [binLoop] at h
    cases h
    exact hz
  | cons b rest ih =>
    intro fuel st st' h hz
    simp only [binLoop] at h
    cases hc : cellLoop g s position group index inc
        (binsAt g top left b) (decide (b = LOCAL_GRID_SIZE / 2)) fuel
        (cellStart g top left b) EMPTY st with
    | none =>
      rw [hc] at h
      cases h
    | some st1 =>
      rw [hc] at h
      exact ih fuel st1 st' h (cellLoop_zero hiso fuel _ _ st st1 hc hz)

/-- C7 — Zero-neighbor stability: when no other entity is within the
subject's protected or visible range, `boid_rules` returns the exact zero
acceleration vector, and the walk ends with both neighbor counts zero, so the
normalising divisions (guarded by `0 < count`) are never performed. -/
theorem C7_zero_neighbor (index : Nat) (g : Grid (Boid α))
    (s : BoidSettings α) (vn : ValueNode (Boid α)) (pr : Vec2 α × Int)
    (hv : g.values[index]? = some vn)
    (hiso : isolated g s vn.val.position index)
    (hres : boid_rules index g s = some pr) :
    pr.1 = Vec2.ZERO ∧
    ∀ st, boidRulesWalk index g s = some st →
      st.prot_count = 0 ∧ st.vis_count = 0 := by
  unfold boid_rules at hres
  cases hwalk : boidRulesWalk index g s with
  | none =>
    rw [hwalk] at hres
    cases hres
  | some st =>
    rw [hwalk] at hres
    have hz : zeroAccums st := by
      have hwalk2 := hwalk
      simp only [boidRulesWalk, hv] at hwalk2
      exact binLoop_zero hiso _ _ _ _ hwalk2
        ⟨rfl, rfl, rfl, rfl, rfl⟩
    obtain ⟨havg, halign, hsep, hvis, hprot⟩ := hz
    simp only [Option.map_some'] at hres
    rw [hprot, hvis] at hres
    norm_num at hres
    constructor
    · rw [← hres]
      rw [havg, halign, hsep, zero_hmul, zero_hmul, zero_hmul,
        add_zero_vec, add_zero_vec]
    · intro st0 hst0
      cases hst0
      exact ⟨hprot, hvis⟩

end ZeroNeighbor

/-! ### Concrete evaluation of the sampling walk on the one-boid grid -/

/-- The literal form of `gPop` (see `gPop_eq`). -/
def gLit : Grid (Boid ℚ) :=
  { values := [⟨EMPTY, bBad⟩], grid := [⟨0, 0, 1⟩],
    count := 1, rows := 1, columns := 1 }

/-- The state in which the walk on `gPop` ends: one entity examined (the
subject itself), all accumulators zero, predecessor found with pointer
`EMPTY`. -/
def stW : RulesState ℚ :=
  { avg := Vec2.ZERO, align := Vec2.ZERO, vis_count := 0, sep := Vec2.ZERO,
    prot_count := 0, prev_found := true, prev_index := EMPTY, acc := 1,
    visited := 1 }

/-- A cell walk from the null pointer returns the state unchanged. -/
theorem cellLoop_negOne {α : Type} [LinearOrderedField α] [FloorRing α]
    (g : Grid (Boid α)) (s : BoidSettings α) (position : Vec2 α)
    (group index : Nat) (inc binVal : α) (isCenter : Bool)
    (fuel : Nat) (lp : Int) (st : RulesState α) :
    cellLoop g s position group index inc binVal isCenter fuel (-1) lp st
      = some st := by
  cases fuel <;> simp [cellLoop, EMPTY]

/-- The center-cell walk on `gLit`: the subject is pulled, found, counted
once, and the chain ends. -/
theorem cellLoop_center_eval (fuel : Nat) :
    cellLoop gLit sC1 ⟨1/2, 1/2⟩ 0 0 1 (binsAt gLit (-2) (-2) 12) true
      (fuel + 1) 0 (-1) initRules = some stW := by
  have hb12 : binsAt gLit (-2 : Int) (-2 : Int) 12 = (1 : ℚ) := by
    unfold binsAt
    rw [show List.range (12 + 1) = [0, 1, 2, 3, 4, 5, 6, 7, 8, 9, 10, 11, 12]
      from rfl]
    norm_num [cntAt, Grid.get_grid_node, Grid.index_from_pos,
      Grid.nodeAt, gLit, emptyNode, EMPTY, LOCAL_GRID_WIDTH, CELLS_IN_RADIUS]
  simp only [cellLoop, hb12]
  norm_num [initRules, gLit, EMPTY, cellLoop_negOne, stW]

/-- Full evaluation of the sampling walk on the freshly populated one-boid
grid. -/
theorem walk_gPop_eq : boidRulesWalk 0 gPop sC1 = some stW := by
  have hg : gPop = gLit := by
    rw [gPop_eq]
    rfl
  have hrc : get_grid_position (⟨1/2, 1/2⟩ : Vec2 ℚ) sC1 gLit
      = ((0 : Int), (0 : Int)) := by
    norm_num [get_grid_position, truncI, sC1, gLit]
  have hb24 : binsAt gLit (-2 : Int) (-2 : Int) (LOCAL_GRID_SIZE - 1)
      = (1 : ℚ) := by
    unfold binsAt
    rw [show (LOCAL_GRID_SIZE - 1 + 1) = 25 from rfl,
      show List.range 25 = [0, 1, 2, 3, 4, 5, 6, 7, 8, 9, 10, 11, 12, 13, 14,
        15, 16, 17, 18, 19, 20, 21, 22, 23, 24] from rfl]
    norm_num [cntAt, Grid.get_grid_node, Grid.index_from_pos,
      Grid.nodeAt, gLit, emptyNode, EMPTY, LOCAL_GRID_WIDTH, CELLS_IN_RADIUS]
  rw [hg]
  unfold boidRulesWalk
  rw [show gLit.values[0]? = some ⟨EMPTY, bBad⟩ from rfl]
  dsimp only [bBad]
  rw [hrc]
  norm_num [CELLS_IN_RADIUS]
  rw [hb24, show max ((1 : ℚ) / (MAX_SAMPLES : ℚ)) 1 = 1 from
    max_eq_right (by norm_num [MAX_SAMPLES]),
    show List.range LOCAL_GRID_SIZE = [0, 1, 2, 3, 4, 5, 6, 7, 8, 9, 10, 11,
      12, 13, 14, 15, 16, 17, 18, 19, 20, 21, 22, 23, 24] from rfl]
  simp only [binLoop, cellStart, cellIndexAt, Grid.index_from_pos,
    Grid.nodeAt, LOCAL_GRID_SIZE, LOCAL_GRID_WIDTH, CELLS_IN_RADIUS,
    show gLit.rows = 1 from rfl, show gLit.columns = 1 from rfl,
    show gLit.grid.getD 0 emptyNode = ⟨0, 0, 1⟩ from rfl, EMPTY]
  norm_num [cellLoop_negOne, cellLoop_center_eval,
    show ((Int.toNat 2 * 2 + 1) * (Int.toNat 2 * 2 + 1) / 2) = 12 from rfl,
    show (decide (12 = 12)) = true from rfl,
    show gLit.grid[0]?.getD emptyNode = (⟨0, 0, 1⟩ : GridNode) from rfl]

/-- The value `boid_rules` returns on the one-boid grid. -/
def prW : Vec2 ℚ × Int := (Vec2.ZERO, EMPTY)

theorem boid_rules_gPop_eq : boid_rules 0 gPop sC1 = some prW := by
  unfold boid_rules
  rw [walk_gPop_eq]
  simp only [Option.map_some']
  norm_num [stW, prW, sC1, zero_hmul, add_zero_vec, EMPTY]

/-- Witness for C7 on the lone boid of `gPop`: the flocking acceleration is
exactly zero and both neighbor counts stay zero. -/
theorem C7_zero_neighbor_witness :
    boid_rules 0 gPop sC1 = some prW ∧ prW.1 = Vec2.ZERO ∧
    (∀ st, boidRulesWalk 0 gPop sC1 = some st →
      st.prot_count = 0 ∧ st.vis_count = 0) := by
  have hv : gPop.values[0]? = some ⟨EMPTY, bBad⟩ := by
    rw [gPop_eq]
    rfl
  have hiso : isolated gPop sC1 bBad.position 0 := by
    intro j hj bj hbj
    rw [gPop_eq] at hbj
    unfold Grid.get_val at hbj
    split at hbj
    · next hlt =>
      have hlt1 : j < 1 := hlt
      exact absurd (by omega : j = 0) hj
    · cases hbj
  have hres := boid_rules_gPop_eq
  have hmain := C7_zero_neighbor 0 gPop sC1 ⟨EMPTY, bBad⟩ prW hv hiso hres
  exact ⟨hres, hmain.1, hmain.2⟩

/-! ### Claim C5: bounded sampling

The accounting distinguishes, for one cell walk, `n` "stride" increments of
`acc` taken while `acc` was still below the cell's bin bound and `b ≤ 1`
"scan" increments taken by the subject branch after the bound was reached
(possible only in the center cell before the predecessor is found).  Globally
`acc` is always (#increments)·increment, every stride increment starts below
its bin bound and hence below the total, and center-cell pulls are bounded by
the subject's own chain length. -/

section BoundedSampling

variable {α : Type} [LinearOrderedField α] [FloorRing α]

/-- The pointer from which `boid_rules` walks window slot `b`: the slot
cell's `first` via `iter_from_index`, or `EMPTY` out of grid (or for an
invalid subject index). -/
def binStart (index : Nat) (g : Grid (Boid α)) (s : BoidSettings α)
    (b : Nat) : Int :=
  match g.values[index]? with
  | none => EMPTY
  | some vn =>
    cellStart g ((get_grid_position vn.val.position s g).1 - CELLS_IN_RADIUS)
      ((get_grid_position vn.val.position s g).2 - CELLS_IN_RADIUS) b

theorem cntAt_nonneg {T : Type} (g : Grid T) (t l : Int) (i : Nat) :
    (0 : α) ≤ cntAt g t l i := by
  unfold cntAt
  split
  · exact Nat.cast_nonneg _
  · exact le_refl 0

theorem binsAt_succ {T : Type} (g : Grid T) (t l : Int) (i : Nat) :
    (binsAt g t l (i + 1) : α) = cntAt g t l (i + 1) + binsAt g t l i := by
  unfold binsAt
  rw [List.range_succ, List.map_append, List.sum_append]
  simp only [List.map_cons, List.map_nil, List.sum_cons, List.sum_nil,
    add_zero]
  ring

theorem binsAt_mono {T : Type} (g : Grid T) (t l : Int) {i j : Nat}
    (h : i ≤ j) : (binsAt g t l i : α) ≤ binsAt g t l j := by
  induction j with
  | zero =>
    have h0 : i = 0 := Nat.le_zero.mp h
    subst h0
    exact le_refl _
  | succ j ih =>
    by_cases hij : i ≤ j
    · calc (binsAt g t l i : α) ≤ binsAt g t l j := ih hij
        _ ≤ binsAt g t l (j + 1) := by
          rw [binsAt_succ]
          have hc : (0 : α) ≤ cntAt g t l (j + 1) := cntAt_nonneg g t l (j + 1)
          linarith
    · have h1 : i = j + 1 := by omega
      subst h1
      exact le_refl _

theorem classify_acc (s : BoidSettings α) (position : Vec2 α) (group : Nat)
    (ob : Boid α) (st : RulesState α) :
    (classify s position group ob st).acc = st.acc := by
  unfold classify
  dsimp only
  split
  · rfl
  · split
    · rfl
    · rfl

theorem classify_prev_found (s : BoidSettings α) (position : Vec2 α)
    (group : Nat) (ob : Boid α) (st : RulesState α) :
    (classify s position group ob st).prev_found = st.prev_found := by
  unfold classify
  dsimp only
  split
  · rfl
  · split
    · rfl
    · rfl

theorem classify_visited (s : BoidSettings α) (position : Vec2 α)
    (group : Nat) (ob : Boid α) (st : RulesState α) :
    (classify s position group ob st).visited = st.visited := by
  unfold classify
  dsimp only
  split
  · rfl
  · split
    · rfl
    · rfl

/-- The trivial increment accounting of a walk that returns its state
unchanged. -/
theorem sampler_count_refl (inc binVal : α) (isCenter : Bool)
    (st : RulesState α) :
    ∃ n b : Nat, st.acc = st.acc + ((n + b : Nat) : α) * inc ∧
      (isCenter = false → st.visited = st.visited + (n + b)) ∧
      b ≤ 1 ∧ (b = 1 → st.prev_found = false) ∧
      (st.prev_found = true → st.prev_found = true) ∧
      (st.prev_found = false → st.prev_found = false ∧ b = 0) ∧
      (1 ≤ n → st.acc + ((n - 1 : Nat) : α) * inc < binVal) :=
  ⟨0, 0, by norm_num, fun _ => by norm_num, by norm_num,
    fun h => absurd h (by norm_num), fun h => h, fun h => ⟨h, rfl⟩,
    fun h => absurd h (by norm_num)⟩

/-- Increment accounting of one cell walk: `n` stride increments (taken below
the bin bound) and `b ≤ 1` scan increments (the subject branch past the
bound, which flips `prev_found`); outside the center cell the walk does work
on exactly `n + b` entities. -/
theorem cellLoop_count {g : Grid (Boid α)} {s : BoidSettings α}
    {position : Vec2 α} {group index : Nat} {inc binVal : α}
    {isCenter : Bool} (hinc : (0 : α) ≤ inc) :
    ∀ fuel p lp st st',
      cellLoop g s position group index inc binVal isCenter fuel p lp st
        = some st' →
      ∃ n b : Nat, st'.acc = st.acc + ((n + b : Nat) : α) * inc ∧
        (isCenter = false → st'.visited = st.visited + (n + b)) ∧
        b ≤ 1 ∧ (b = 1 → st.prev_found = false) ∧
        (st.prev_found = true → st'.prev_found = true) ∧
        (st'.prev_found = false → st.prev_found = false ∧ b = 0) ∧
        (1 ≤ n → st.acc + ((n - 1 : Nat) : α) * inc < binVal) := by
  intro fuel
  induction fuel with
  | zero =>
    intro p lp st st' h
    simp only [cellLoop] at h
    split at h
    · cases h
      exact sampler_count_refl inc binVal isCenter st
    · cases h
  | succ fuel ih =>
    intro p lp st st' h
    simp only [cellLoop] at h
    split at h
    · cases h
      exact sampler_count_refl inc binVal isCenter st
    split at h
    · cases h
    split at h
    · cases h
    next node hnode =>
      split at h
      · cases h
        exact sampler_count_refl inc binVal isCenter st
      next hbreak =>
        split at h
        · -- subject branch
          obtain ⟨n', b', hacc, hvis, hble, hbpf, hmono, hpfF, hstr⟩ :=
            ih _ _ _ _ h
          dsimp only at hacc hvis hbpf hmono hpfF hstr
          have hb'0 : b' = 0 := by
            rcases Nat.le_one_iff_eq_zero_or_eq_one.mp hble with h0 | h1
            · exact h0
            · exact absurd (hbpf h1) (by simp)
          subst hb'0
          rcases lt_or_ge st.acc binVal with hlt | hge
          · refine ⟨n' + 1, 0, ?_, ?_, by norm_num,
              fun hh => absurd hh (by norm_num), fun _ => hmono rfl,
              fun hf => absurd (hmono rfl) (by simp [hf]), ?_⟩
            · rw [hacc]
              push_cast
              ring
            · intro hic
              rw [hvis hic]
              omega
            · intro _
              rw [Nat.add_sub_cancel]
              rcases Nat.eq_zero_or_pos n' with h0 | h1
              · subst h0
                simpa using hlt
              · have hs := hstr h1
                have hc1 : ((n' - 1 : Nat) : α) = (n' : α) - 1 := by
                  rw [Nat.cast_sub h1, Nat.cast_one]
                have hcast : ((n' : Nat) : α) * inc
                    = inc + ((n' - 1 : Nat) : α) * inc := by
                  rw [hc1]
                  ring
                rw [hcast]
                linarith
          · -- scan subject: center, predecessor not yet found
            have hic : isCenter = true ∧ st.prev_found = false := by
              have h2 : ¬(¬isCenter ∨ st.prev_found) :=
                fun hq => hbreak ⟨hge, hq⟩
              push_neg at h2
              exact ⟨h2.1, by simpa using h2.2⟩
            refine ⟨n', 1, ?_, ?_, le_refl 1, fun _ => hic.2,
              fun _ => hmono rfl,
              fun hf => absurd (hmono rfl) (by simp [hf]), ?_⟩
            · rw [hacc]
              push_cast
              ring
            · intro hfic
              rw [hfic] at hic
              exact absurd hic.1 (by simp)
            · intro h1
              have hs := hstr h1
              linarith
        next hsubne =>
          split at h
          · -- predecessor-scan branch: center, no increment, no work counted
            next hge =>
              obtain ⟨n', b', hacc, hvis, hble, hbpf, hmono, hpfF, hstr⟩ :=
                ih _ _ _ _ h
              dsimp only at hacc hvis hbpf hmono hpfF hstr
              have hic : isCenter = true := by
                have h2 : ¬(¬isCenter ∨ st.prev_found) :=
                  fun hq => hbreak ⟨hge, hq⟩
                push_neg at h2
                exact h2.1
              refine ⟨n', b', hacc, ?_, hble, hbpf, hmono, hpfF, hstr⟩
              intro hfic
              rw [hfic] at hic
              exact absurd hic (by simp)
          · next hge0 =>
            split at h
            · cases h
            next other_boid hget =>
              obtain ⟨n', b', hacc, hvis, hble, hbpf, hmono, hpfF, hstr⟩ :=
                ih _ _ _ _ h
              dsimp only at hacc hvis hbpf hmono hpfF hstr
              rw [classify_acc] at hacc hstr
              rw [classify_prev_found] at hbpf hmono hpfF
              rw [classify_visited] at hvis
              have hlt : st.acc < binVal := not_le.mp hge0
              refine ⟨n' + 1, b', ?_, ?_, hble, hbpf, hmono, hpfF, ?_⟩
              · rw [hacc]
                push_cast
                ring
              · intro hic
                rw [hvis hic]
                omega
              · intro _
                rw [Nat.add_sub_cancel]
                rcases Nat.eq_zero_or_pos n' with h0 | h1
                · subst h0
                  simpa using hlt
                · have hs := hstr h1
                  have hc1 : ((n' - 1 : Nat) : α) = (n' : α) - 1 := by
                    rw [Nat.cast_sub h1, Nat.cast_one]
                  have hcast : ((n' : Nat) : α) * inc
                      = inc + ((n' - 1 : Nat) : α) * inc := by
                    rw [hc1]
                    ring
                  rw [hcast]
                  linarith

/-- A cell walk from the `EMPTY` pointer returns its state unchanged. -/
theorem cellLoop_emptyP {g : Grid (Boid α)} {s : BoidSettings α}
    {position : Vec2 α} {group index : Nat} {inc binVal : α}
    {isCenter : Bool} (fuel : Nat) (lp : Int) (st : RulesState α) :
    cellLoop g s position group index inc binVal isCenter fuel EMPTY lp st
      = some st := by
  cases fuel <;> simp [cellLoop]

/-- A cell walk does work on at most as many entities as the cell's chain is
long. -/
theorem cellLoop_visits_le {g : Grid (Boid α)} {s : BoidSettings α}
    {position : Vec2 α} {group index : Nat} {inc binVal : α}
    {isCenter : Bool} :
    ∀ (l : List Nat) (fuel : Nat) (p lp : Int) (st st' : RulesState α),
      follows g.values l p EMPTY →
      cellLoop g s position group index inc binVal isCenter fuel p lp st
        = some st' →
      st'.visited ≤ st.visited + l.length := by
  intro l
  induction l with
  | nil =>
    intro fuel p lp st st' hf h
    rw [follows_nil] at hf
    subst hf
    rw [cellLoop_emptyP] at h
    cases h
    simp
  | cons a l ih =>
    intro fuel p lp st st' hf h
    obtain ⟨nx, hnx, hpa, hfl⟩ := hf
    subst hpa
    cases fuel with
    | zero =>
      simp only [cellLoop] at h
      split at h
      · cases h
        exact Nat.le_add_right _ _
      · cases h
    | succ fuel =>
      simp only [cellLoop] at h
      split at h
      · cases h
        exact Nat.le_add_right _ _
      split at h
      · cases h
      split at h
      · cases h
      next node hnode =>
        have htn : ((a : Int)).toNat = a := Int.toNat_natCast a
        rw [htn] at hnode
        have hnx2 : node.next_index = nx := by
          unfold nextAt at hnx
          rw [hnode] at hnx
          simpa using hnx
        subst hnx2
        split at h
        · cases h
          exact Nat.le_add_right _ _
        split at h
        · have hrec := ih fuel _ _ _ _ hfl h
          dsimp only at hrec
          simp only [List.length_cons]
          omega
        split at h
        · have hrec := ih fuel _ _ _ _ hfl h
          dsimp only at hrec
          simp only [List.length_cons]
          omega
        · split at h
          · cases h
          next other_boid hget =>
            have hrec := ih fuel _ _ _ _ hfl h
            dsimp only at hrec
            rw [classify_visited] at hrec
            simp only [List.length_cons]
            omega

/-- Global increment accounting across the window's bins: the final `acc` is
a multiple of the increment, at most one scan increment ever happens, every
stride increment starts below the total bound `T`, and the total work is the
number of increments plus one chain length per center-cell pass. -/
theorem binLoop_count {g : Grid (Boid α)} {s : BoidSettings α}
    {position : Vec2 α} {group index : Nat} {inc T : α} {top left : Int}
    (hinc : (0 : α) ≤ inc) (lc : List Nat)
    (hlc : follows g.values lc (cellStart g top left (LOCAL_GRID_SIZE / 2))
      EMPTY) :
    ∀ (bs : List Nat) (fuel : Nat) (st st' : RulesState α),
      (∀ b ∈ bs, (binsAt g top left b : α) ≤ T) →
      binLoop g s position group index inc top left fuel bs st = some st' →
      ∀ N B : Nat,
        st.acc = ((N + B : Nat) : α) * inc →
        B ≤ 1 →
        (st.prev_found = false → B = 0) →
        (1 ≤ N → ((N - 1 : Nat) : α) * inc < T) →
        ∃ N2 B2 : Nat,
          st'.acc = ((N2 + B2 : Nat) : α) * inc ∧ B2 ≤ 1 ∧
          (st'.prev_found = false → B2 = 0) ∧
          (1 ≤ N2 → ((N2 - 1 : Nat) : α) * inc < T) ∧
          st'.visited + N + B ≤ st.visited + N2 + B2 +
            (bs.count (LOCAL_GRID_SIZE / 2)) * lc.length := by
  intro bs
  induction bs with
  | nil =>
    intro fuel st st' hT h N B hacc hB hpfB hstr
    simp only [binLoop] at h
    cases h
    exact ⟨N, B, hacc, hB, hpfB, hstr, by simp⟩
  | cons b rest ih =>
    intro fuel st st' hT h N B hacc hB hpfB hstr
    simp only [binLoop] at h
    cases hc : cellLoop g s position group index inc (binsAt g top left b)
        (decide (b = LOCAL_GRID_SIZE / 2)) fuel (cellStart g top left b)
        EMPTY st with
    | none =>
      rw [hc] at h
      cases h
    | some st1 =>
      rw [hc] at h
      obtain ⟨n, bb, hacc1, hvis1, hbb, hbbpf, hmono1, hpfF1, hstr1⟩ :=
        cellLoop_count hinc fuel _ _ st st1 hc
      have hbT : (binsAt g top left b : α) ≤ T := hT b (List.mem_cons_self b rest)
      have hacc2 : st1.acc = ((N + n + (B + bb) : Nat) : α) * inc := by
        rw [hacc1, hacc]
        push_cast
        ring
      have hB2 : B + bb ≤ 1 := by
        rcases Nat.le_one_iff_eq_zero_or_eq_one.mp hbb with h0 | h1
        · omega
        · have := hpfB (hbbpf h1)
          omega
      have hpfB2 : st1.prev_found = false → B + bb = 0 := by
        intro hf
        obtain ⟨hsf, hb0⟩ := hpfF1 hf
        have := hpfB hsf
        omega
      have hstr2 : 1 ≤ N + n → ((N + n - 1 : Nat) : α) * inc < T := by
        intro h1
        rcases Nat.eq_zero_or_pos n with h0 | hn1
        · subst h0
          simpa using hstr (by omega)
        · have hs := hstr1 hn1
          have hle : ((N + n - 1 : Nat) : α) * inc
              ≤ st.acc + ((n - 1 : Nat) : α) * inc := by
            rw [hacc]
            have hnat : (N + n - 1 : Nat) ≤ N + B + (n - 1) := by omega
            have hcast : ((N + n - 1 : Nat) : α)
                ≤ ((N + B + (n - 1) : Nat) : α) := by
              exact_mod_cast hnat
            calc ((N + n - 1 : Nat) : α) * inc
                ≤ ((N + B + (n - 1) : Nat) : α) * inc :=
                  mul_le_mul_of_nonneg_right hcast hinc
              _ = ((N + B : Nat) : α) * inc + ((n - 1 : Nat) : α) * inc := by
                  push_cast
                  ring
          linarith
      have hT' : ∀ b0 ∈ rest, (binsAt g top left b0 : α) ≤ T :=
        fun b0 hb0 => hT b0 (List.mem_cons_of_mem b hb0)
      obtain ⟨N2, B2, hf1, hf2, hf3, hf4, hf5⟩ :=
        ih fuel st1 st' hT' h (N + n) (B + bb) hacc2 hB2 hpfB2 hstr2
      refine ⟨N2, B2, hf1, hf2, hf3, hf4, ?_⟩
      by_cases hbc : b = LOCAL_GRID_SIZE / 2
      · have hvc : st1.visited ≤ st.visited + lc.length := by
          subst hbc
          exact cellLoop_visits_le lc fuel _ _ st st1 hlc hc
        have hcnt : (b :: rest).count (LOCAL_GRID_SIZE / 2)
            = rest.count (LOCAL_GRID_SIZE / 2) + 1 := by
          simp [List.count_cons, hbc]
        rw [hcnt]
        have hmulx : (rest.count (LOCAL_GRID_SIZE / 2) + 1) * lc.length
            = rest.count (LOCAL_GRID_SIZE / 2) * lc.length + lc.length := by
          ring
        rw [hmulx]
        set K := rest.count (LOCAL_GRID_SIZE / 2) * lc.length with hK
        omega
      · have hvnc : st1.visited = st.visited + (n + bb) :=
          hvis1 (decide_eq_false hbc)
        have hcnt : (b :: rest).count (LOCAL_GRID_SIZE / 2)
            = rest.count (LOCAL_GRID_SIZE / 2) := by
          simp [List.count_cons, hbc]
        rw [hcnt]
        set K := rest.count (LOCAL_GRID_SIZE / 2) * lc.length with hK
        omega

/-- C5 — Bounded sampling: however many entities reside in the window, a
completed `boid_rules` walk does work on at most `MAX_SAMPLES + 1` entities
plus one full pass over the subject's own cell chain (the extra walk that
finds the predecessor). -/
theorem C5_bounded_sampling (index : Nat) (g : Grid (Boid α))
    (s : BoidSettings α) (st : RulesState α) (lc : List Nat)
    (hwalk : boidRulesWalk index g s = some st)
    (hlc : follows g.values lc
      (binStart index g s (LOCAL_GRID_SIZE / 2)) EMPTY) :
    st.visited ≤ MAX_SAMPLES.toNat + 1 + lc.length := by
  unfold boidRulesWalk at hwalk
  cases hv : g.values[index]? with
  | none =>
    rw [hv] at hwalk
    cases hwalk
  | some vn =>
    rw [hv] at hwalk
    dsimp only at hwalk
    unfold binStart at hlc
    rw [hv] at hlc
    dsimp only at hlc
    set top := (get_grid_position vn.val.position s g).1 - CELLS_IN_RADIUS
      with htop
    set left := (get_grid_position vn.val.position s g).2 - CELLS_IN_RADIUS
      with hleft
    set inc := max ((binsAt g top left (LOCAL_GRID_SIZE - 1) : α)
      / (MAX_SAMPLES : α)) 1 with hincdef
    have hinc1 : (1 : α) ≤ inc := by
      rw [hincdef]
      exact le_max_right _ _
    have hinc0 : (0 : α) ≤ inc := le_trans zero_le_one hinc1
    have hincT : (binsAt g top left (LOCAL_GRID_SIZE - 1) : α)
        ≤ (MAX_SAMPLES : α) * inc := by
      have hd : (binsAt g top left (LOCAL_GRID_SIZE - 1) : α)
          / (MAX_SAMPLES : α) ≤ inc := by
        rw [hincdef]
        exact le_max_left _ _
      have h300 : (0 : α) < (MAX_SAMPLES : α) := by norm_num [MAX_SAMPLES]
      rw [div_le_iff h300] at hd
      have hcm := mul_comm inc (MAX_SAMPLES : α)
      linarith
    have hT : ∀ b ∈ List.range LOCAL_GRID_SIZE,
        (binsAt g top left b : α) ≤ binsAt g top left (LOCAL_GRID_SIZE - 1) := by
      intro b hb
      have hb25 := List.mem_range.mp hb
      exact binsAt_mono g top left (by omega)
    obtain ⟨N2, B2, hr1, hB2, hr3, hstr2, hvis2⟩ :=
      binLoop_count hinc0 lc hlc _ _ _ _ hT hwalk 0 0
        (by norm_num [initRules]) (by norm_num) (fun _ => rfl)
        (fun h => absurd h (by norm_num))
    have hcnt : (List.range LOCAL_GRID_SIZE).count (LOCAL_GRID_SIZE / 2)
        = 1 := by decide
    rw [hcnt] at hvis2
    have hN2 : N2 ≤ 300 := by
      rcases Nat.eq_zero_or_pos N2 with h0 | h1
      · omega
      · have hs := hstr2 h1
        have hlt : ((N2 - 1 : Nat) : α) * inc < (MAX_SAMPLES : α) * inc :=
          lt_of_lt_of_le hs hincT
        have hincpos : (0 : α) < inc := lt_of_lt_of_le zero_lt_one hinc1
        have h2 : ((N2 - 1 : Nat) : α) < (MAX_SAMPLES : α) :=
          (mul_lt_mul_right hincpos).mp hlt
        norm_num [MAX_SAMPLES] at h2
        have h3 : (N2 - 1 : Nat) < 300 := by exact_mod_cast h2
        omega
    have hvis3 : st.visited + 0 + 0 ≤ initRules.visited + N2 + B2
        + 1 * lc.length := hvis2
    have hinit : (initRules : RulesState α).visited = 0 := rfl
    rw [hinit, one_mul] at hvis3
    have hms : MAX_SAMPLES.toNat = 300 := rfl
    omega

end BoundedSampling

/-- The start pointer of the center bin of `gPop`'s walk: its single cell's
head, arena slot 0. -/
theorem binStart_gPop : binStart 0 gPop sC1 (LOCAL_GRID_SIZE / 2) = 0 := by
  have hg : gPop = gLit := by
    rw [gPop_eq]
    rfl
  rw [hg]
  unfold binStart
  rw [show gLit.values[0]? = some ⟨EMPTY, bBad⟩ from rfl]
  dsimp only [bBad]
  norm_num [cellStart, cellIndexAt, get_grid_position, truncI, sC1,
    Grid.index_from_pos, Grid.nodeAt, gLit, EMPTY, LOCAL_GRID_WIDTH,
    LOCAL_GRID_SIZE, CELLS_IN_RADIUS, emptyNode]

/-- Witness for C5 on the one-boid grid: the walk does work on one entity,
within the bound 300 + 1 + 1. -/
theorem C5_bounded_sampling_witness :
    boidRulesWalk 0 gPop sC1 = some stW ∧
    follows gPop.values [0] (binStart 0 gPop sC1 (LOCAL_GRID_SIZE / 2))
      EMPTY ∧
    stW.visited ≤ MAX_SAMPLES.toNat + 1 + ([0] : List Nat).length := by
  have h1 := walk_gPop_eq
  have h2 : follows gPop.values [0]
      (binStart 0 gPop sC1 (LOCAL_GRID_SIZE / 2)) EMPTY := by
    rw [binStart_gPop, follows_cons]
    refine ⟨EMPTY, ?_, by norm_num, rfl⟩
    rw [gPop_eq]
    rfl
  exact ⟨h1, h2, C5_bounded_sampling 0 gPop sC1 stW [0] h1 h2⟩

/-! ### Claim C9: the frame property of update_boid -/

section FrameProperty

variable {α : Type} [LinearOrderedField α] [FloorRing α]

theorem elim_of_some {γ : Type} {o : Option γ} {P : γ → Prop}
    (h : ∀ x, o = some x → P x) : o.elim True P := by
  cases o with
  | none => trivial
  | some x => exact h x rfl

theorem lt_of_getElem?_some {γ : Type} {l : List γ} {i : Nat} {x : γ}
    (h : l[i]? = some x) : i < l.length := by
  by_contra hge
  rw [List.getElem?_eq_none (by omega)] at h
  cases h

/-- Overwriting a slot with a value-preserving node keeps the arena's `val`
map unchanged. -/
theorem map_val_set_of_get {T : Type} {vals : List (ValueNode T)} {p : Nat}
    {pnode : ValueNode T} (hp : vals[p]? = some pnode) (nx : Int) (j : Nat) :
    (((vals.set p { pnode with next_index := nx })[j]?).map (·.val))
      = ((vals[j]?).map (·.val)) := by
  by_cases hj : p = j
  · subst hj
    rw [List.getElem?_set_self (by simpa using lt_of_getElem?_some hp), hp]
    rfl
  · rw [List.getElem?_set_ne hj]

theorem index_from_pos_congr {T U : Type} {g1 : Grid T} {g2 : Grid U}
    (hr : g1.rows = g2.rows) (hc : g1.columns = g2.columns) (r c : Int) :
    g1.index_from_pos r c = g2.index_from_pos r c := by
  unfold Grid.index_from_pos
  rw [hr, hc]

/-- Whatever `unlink_val` returns, only the supplied predecessor's link and
the named cell's metadata can differ from the input grid. -/
theorem unlink_val_frames {T : Type} (g : Grid T) (index : Nat)
    (prev row col : Int) (g' : Grid T)
    (h : g.unlink_val index prev row col = some g') :
    g'.values.length = g.values.length ∧ g'.count = g.count ∧
    g'.rows = g.rows ∧ g'.columns = g.columns ∧
    g'.grid.length = g.grid.length ∧
    (∀ j : Nat, ((g'.values[j]?).map (·.val)) = ((g.values[j]?).map (·.val))) ∧
    (∀ j : Nat, (j : Int) ≠ prev → nextAt g'.values j = nextAt g.values j) ∧
    (∀ c : Nat, c ≠ (g.index_from_pos row col).toNat →
      g'.nodeAt c = g.nodeAt c) := by
  unfold Grid.unlink_val at h
  dsimp only at h
  by_cases hge : 0 ≤ g.index_from_pos row col
  · rw [if_pos hge] at h
    cases hnode : g.values[index]? with
    | none =>
      rw [hnode] at h
      cases h
    | some node =>
      rw [hnode] at h
      dsimp only at h
      by_cases hprev : prev = EMPTY
      · rw [if_pos hprev] at h
        by_cases hfirst :
            (g.nodeAt (g.index_from_pos row col).toNat).first ≠ (index : Int)
        · rw [if_pos hfirst] at h
          cases h
        · rw [if_neg hfirst] at h
          cases h
          refine ⟨rfl, rfl, rfl, rfl, by simp, fun j => rfl, fun j _ => rfl,
            ?_⟩
          intro c hc
          show (g.grid.set _ _).getD c emptyNode = g.grid.getD c emptyNode
          exact getD_set_ne (Ne.symm hc)
      · rw [if_neg hprev] at h
        by_cases hpneg : prev < 0
        · rw [if_pos hpneg] at h
          cases h
        · rw [if_neg hpneg] at h
          cases hpnode : g.values[prev.toNat]? with
          | none =>
            rw [hpnode] at h
            cases h
          | some pnode =>
            rw [hpnode] at h
            dsimp only at h
            by_cases hpn : pnode.next_index ≠ (index : Int)
            · rw [if_pos hpn] at h
              cases h
            · rw [if_neg hpn] at h
              cases h
              have hprev0 : (0 : Int) ≤ prev := by omega
              refine ⟨by simp, rfl, rfl, rfl, by simp, ?_, ?_, ?_⟩
              · intro j
                exact map_val_set_of_get hpnode _ j
              · intro j hj
                have hjp : prev.toNat ≠ j := by
                  intro he
                  apply hj
                  rw [← he, Int.toNat_of_nonneg hprev0]
                exact nextAt_set_ne hjp
              · intro c hc
                show (g.grid.set _ _).getD c emptyNode
                  = g.grid.getD c emptyNode
                exact getD_set_ne (Ne.symm hc)
  · rw [if_neg hge] at h
    cases h
    exact ⟨rfl, rfl, rfl, rfl, rfl, fun j => rfl, fun j _ => rfl,
      fun c _ => rfl⟩

/-- Whatever `link_val` returns, only the subject's link, the target cell's
former tail's link, and the target cell's metadata can differ. -/
theorem link_val_frames {T : Type} (g : Grid T) (index : Nat)
    (row col : Int) (g' : Grid T)
    (h : g.link_val index row col = some g') :
    g'.values.length = g.values.length ∧ g'.count = g.count ∧
    g'.rows = g.rows ∧ g'.columns = g.columns ∧
    g'.grid.length = g.grid.length ∧
    (∀ j : Nat, ((g'.values[j]?).map (·.val)) = ((g.values[j]?).map (·.val))) ∧
    (∃ t : Int, ∀ j : Nat, j ≠ index → (j : Int) ≠ t →
      nextAt g'.values j = nextAt g.values j) ∧
    (∀ c : Nat, c ≠ (g.index_from_pos row col).toNat →
      g'.nodeAt c = g.nodeAt c) := by
  unfold Grid.link_val at h
  dsimp only at h
  by_cases hne : g.index_from_pos row col ≠ EMPTY
  · rw [if_pos hne] at h
    cases hnode : g.values[index]? with
    | none =>
      rw [hnode] at h
      cases h
    | some node =>
      rw [hnode] at h
      dsimp only at h
      by_cases hlast : 0 ≤ (g.nodeAt (g.index_from_pos row col).toNat).last
      · rw [if_pos hlast] at h
        cases hlnode : (g.values.set index
            { node with next_index := EMPTY })[(g.nodeAt
              (g.index_from_pos row col).toNat).last.toNat]? with
        | none =>
          rw [hlnode] at h
          cases h
        | some lnode =>
          rw [hlnode] at h
          cases h
          refine ⟨by simp, rfl, rfl, rfl, by simp, ?_,
            ⟨(g.nodeAt (g.index_from_pos row col).toNat).last, ?_⟩, ?_⟩
          · intro j
            exact (map_val_set_of_get hlnode _ j).trans
              (map_val_set_of_get hnode _ j)
          · intro j hj hjt
            have hjl : ((g.nodeAt (g.index_from_pos row col).toNat).last).toNat
                ≠ j := by
              intro he
              apply hjt
              rw [← he, Int.toNat_of_nonneg hlast]
            exact (nextAt_set_ne hjl).trans (nextAt_set_ne (Ne.symm hj))
          · intro c hc
            show (g.grid.set _ _).getD c emptyNode = g.grid.getD c emptyNode
            exact getD_set_ne (Ne.symm hc)
      · rw [if_neg hlast] at h
        cases h
        refine ⟨by simp, rfl, rfl, rfl, by simp, ?_, ⟨0, ?_⟩, ?_⟩
        · intro j
          exact map_val_set_of_get hnode _ j
        · intro j hj _
          exact nextAt_set_ne (Ne.symm hj)
        · intro c hc
          show (g.grid.set _ _).getD c emptyNode = g.grid.getD c emptyNode
          exact getD_set_ne (Ne.symm hc)
  · rw [if_neg hne] at h
    cases h
    exact ⟨rfl, rfl, rfl, rfl, rfl, fun j => rfl, ⟨0, fun j _ _ => rfl⟩,
      fun c _ => rfl⟩

theorem writeBack_length (g : Grid (Boid α)) (index : Nat)
    (vn : ValueNode (Boid α)) (v p : Vec2 α) :
    (writeBack g index vn v p).values.length = g.values.length := by
  simp [writeBack]

theorem writeBack_count (g : Grid (Boid α)) (index : Nat)
    (vn : ValueNode (Boid α)) (v p : Vec2 α) :
    (writeBack g index vn v p).count = g.count := rfl

theorem writeBack_rows (g : Grid (Boid α)) (index : Nat)
    (vn : ValueNode (Boid α)) (v p : Vec2 α) :
    (writeBack g index vn v p).rows = g.rows := rfl

theorem writeBack_columns (g : Grid (Boid α)) (index : Nat)
    (vn : ValueNode (Boid α)) (v p : Vec2 α) :
    (writeBack g index vn v p).columns = g.columns := rfl

theorem writeBack_grid (g : Grid (Boid α)) (index : Nat)
    (vn : ValueNode (Boid α)) (v p : Vec2 α) :
    (writeBack g index vn v p).grid = g.grid := rfl

theorem writeBack_val_ne (g : Grid (Boid α)) (index : Nat)
    (vn : ValueNode (Boid α)) (v p : Vec2 α) {j : Nat} (hj : j ≠ index) :
    (((writeBack g index vn v p).values[j]?).map (·.val))
      = ((g.values[j]?).map (·.val)) := by
  unfold writeBack
  dsimp only
  rw [List.getElem?_set_ne (Ne.symm hj)]

theorem writeBack_nextAt (g : Grid (Boid α)) (index : Nat)
    (vn : ValueNode (Boid α)) (v p : Vec2 α)
    (hv : g.values[index]? = some vn) (j : Nat) :
    nextAt (writeBack g index vn v p).values j = nextAt g.values j := by
  unfold writeBack
  dsimp only
  by_cases hj : j = index
  · subst hj
    have hlen : j < g.values.length := lt_of_getElem?_some hv
    rw [nextAt_set_self hlen]
    unfold nextAt
    rw [hv]
    rfl
  · exact nextAt_set_ne (Ne.symm hj)

theorem writeBack_get_self (g : Grid (Boid α)) (index : Nat)
    (vn : ValueNode (Boid α)) (v p : Vec2 α)
    (hv : g.values[index]? = some vn) :
    (writeBack g index vn v p).values[index]?
      = some { next_index := vn.next_index,
               val := { vn.val with velocity := v, position := p } } := by
  unfold writeBack
  dsimp only
  rw [List.getElem?_set_self (by simpa using lt_of_getElem?_some hv)]

/-- The frame property of one `update_boid` call on entity `index`: arena
size, total count, and grid geometry are unchanged; every other entity's
stored value (position, velocity, and group) is unchanged; cell metadata
changes in at most two cells — `c₁`, the subject's old cell computed from its
pre-call position, and `c₂`, its new cell computed from its stored post-call
position; and at most three `next` links change: the subject's own, its
supplied predecessor `p`'s, and the new cell's former tail `t`'s. -/
def FrameSpec (g gout : Grid (Boid α)) (index : Nat)
    (s : BoidSettings α) : Prop :=
  gout.values.length = g.values.length ∧
  gout.count = g.count ∧ gout.rows = g.rows ∧ gout.columns = g.columns ∧
  gout.grid.length = g.grid.length ∧
  (∀ j, j ≠ index →
    ((gout.values[j]?).map (·.val)) = ((g.values[j]?).map (·.val))) ∧
  (∃ c₁ c₂ : Nat,
    (∀ vn, g.values[index]? = some vn →
      c₁ = (g.index_from_pos (get_grid_position vn.val.position s g).1
        (get_grid_position vn.val.position s g).2).toNat) ∧
    (∀ vn, gout.values[index]? = some vn →
      c₂ = (g.index_from_pos (get_grid_position vn.val.position s g).1
        (get_grid_position vn.val.position s g).2).toNat) ∧
    (∀ c, c ≠ c₁ → c ≠ c₂ → gout.nodeAt c = g.nodeAt c)) ∧
  (∃ p t : Int, ∀ j : Nat, j ≠ index → (j : Int) ≠ p → (j : Int) ≠ t →
    nextAt gout.values j = nextAt g.values j)

/-- The relink tail of `update_boid` (write-back, unlink from the old cell,
link into the new cell) satisfies the frame property. -/
theorem update_tail_frames (g : Grid (Boid α)) (index : Nat)
    (vn : ValueNode (Boid α)) {V P : Vec2 α} {prev : Int}
    (s : BoidSettings α) (gout g2 : Grid (Boid α))
    (hv : g.values[index]? = some vn)
    (hul : (writeBack g index vn V P).unlink_val index prev
      (get_grid_position vn.val.position s (writeBack g index vn V P)).1
      (get_grid_position vn.val.position s (writeBack g index vn V P)).2
      = some g2)
    (hlk : g2.link_val index
      (get_grid_position P s (writeBack g index vn V P)).1
      (get_grid_position P s (writeBack g index vn V P)).2 = some gout) :
    FrameSpec g gout index s := by
  obtain ⟨hu1, hu2, hu3, hu4, hu5, huv, hun, huc⟩ :=
    unlink_val_frames _ _ _ _ _ _ hul
  obtain ⟨hl1, hl2, hl3, hl4, hl5, hlv, ⟨t, hln⟩, hlc⟩ :=
    link_val_frames _ _ _ _ _ hlk
  refine ⟨?_, ?_, ?_, ?_, ?_, ?_, ?_, ?_⟩
  · rw [hl1, hu1, writeBack_length]
  · rw [hl2, hu2, writeBack_count]
  · rw [hl3, hu3, writeBack_rows]
  · rw [hl4, hu4, writeBack_columns]
  · rw [hl5, hu5, writeBack_grid]
  · intro j hj
    rw [hlv j, huv j, writeBack_val_ne g index vn V P hj]
  · refine ⟨(g.index_from_pos (get_grid_position vn.val.position s g).1
        (get_grid_position vn.val.position s g).2).toNat,
      (g.index_from_pos (get_grid_position P s g).1
        (get_grid_position P s g).2).toNat, ?_, ?_, ?_⟩
    · intro vn2 hvn2
      rw [hv] at hvn2
      cases hvn2
      rfl
    · intro vn2 hvn2
      have hmap : ((gout.values[index]?).map (·.val))
          = some { vn.val with velocity := V, position := P } := by
        rw [hlv index, huv index, writeBack_get_self g index vn V P hv]
        rfl
      rw [hvn2] at hmap
      simp only [Option.map_some'] at hmap
      have hval := Option.some.inj hmap
      rw [hval]
    · intro c hc1 hc2
      have hne2 : c ≠ (g2.index_from_pos
          (get_grid_position P s (writeBack g index vn V P)).1
          (get_grid_position P s (writeBack g index vn V P)).2).toNat := by
        rw [index_from_pos_congr hu3 hu4]
        exact hc2
      have hne1 : c ≠ ((writeBack g index vn V P).index_from_pos
          (get_grid_position vn.val.position s (writeBack g index vn V P)).1
          (get_grid_position vn.val.position s (writeBack g index vn V P)).2).toNat :=
        hc1
      exact (hlc c hne2).trans (huc c hne1)
  · refine ⟨prev, t, ?_⟩
    intro j hj hjp hjt
    exact (hln j hj hjt).trans
      ((hun j hjp).trans (writeBack_nextAt g index vn V P hv j))

/-- C9 — Frame property of the per-entity update: whenever `update_boid`
returns a grid, that grid agrees with the input on arena size, total count,
geometry, every other entity's stored value, all cells except the subject's
old and new cells, and all `next` links except the subject's, its supplied
predecessor's, and the new cell's former tail's. -/
theorem C9_update_frame (sq : α → α) (r1 r2 : α) (index : Nat)
    (g : Grid (Boid α)) (s : BoidSettings α) (delta : α) :
    (update_boid sq r1 r2 index g s delta).elim True
      (fun gout => FrameSpec g gout index s) := by
  refine elim_of_some ?_
  intro gout hout
  unfold update_boid at hout
  cases hv : g.values[index]? with
  | none =>
    rw [hv] at hout
    cases hout
  | some vn =>
    rw [hv] at hout
    dsimp only at hout
    cases hbr : boid_rules index g s with
    | none =>
      rw [hbr] at hout
      cases hout
    | some ap =>
      rw [hbr] at hout
      dsimp only at hout
      split at hout
      · cases hout
      next g2 hul =>
        exact update_tail_frames g index vn s gout g2 hv hul hout

end FrameProperty

end CliBoids
